import Mathlib

/-!
# Verification of the Cloudflare image-caching worker (`src/worker.ts`)

This file is a shallow embedding of the worker's logic in Lean 4:

* JS string primitives (`split('?')[0]`, `padStart(2, '0')`, `toLowerCase`,
  `includes`) are modelled as executable functions on `String` / `List Char`;
* the WHATWG `URL` object (parse / `hostname` / `pathname` / `search` /
  `toString`) is modelled for the `scheme://host[:port]/path?query#fragment`
  shape the worker manipulates, with parse failure returned as `none`
  (modelling the `new URL(...)` exception);
* `crypto.subtle.digest('SHA-256', ...)` is modelled by a full executable
  SHA-256 over byte lists (`Nat` values `< 256`, arithmetic taken `% 2^32`);
* the fetch network and the R2 bucket are explicit collaborators: a fetch
  oracle `String → FetchResult` and a key/value store `Bucket`;
* the `POST /cache` and `GET` handlers are translated branch by branch.

Theorems about the claims of the specification follow the definitions.
-/

/-! ## JS character and string primitives -/

/-- ASCII lowercasing of one character, as `String.prototype.toLowerCase`
and the WHATWG URL parser perform on the ASCII strings handled here. -/
def lowerChar (c : Char) : Char :=
  if c.isUpper then Char.ofNat (c.toNat + 32) else c

/-- `s.toLowerCase()` for ASCII strings. -/
def strLower (s : String) : String := ⟨s.data.map lowerChar⟩

/-- Split a character list at the first occurrence of `c`: the part before,
and (when `c` occurs) the part after. -/
def breakAtChar (c : Char) : List Char → List Char × Option (List Char)
  | [] => ([], none)
  | x :: xs =>
    if x = c then ([], some xs)
    else
      let r := breakAtChar c xs
      (x :: r.1, r.2)

/-- `s.split(c)[0]`: the part of `s` before the first occurrence of `c`
(all of `s` when `c` does not occur). -/
def jsSplitHead (s : String) (c : Char) : String := ⟨(breakAtChar c s.data).1⟩

/-- `s.split(c).pop()`: the part of `s` after the last occurrence of `c`
(all of `s` when `c` does not occur). -/
def jsSplitTail (s : String) (c : Char) : String :=
  ⟨((breakAtChar c s.data.reverse).1).reverse⟩

/-- Is `pat` a leading segment of `text`? -/
def leadsWith : List Char → List Char → Bool
  | [], _ => true
  | _ :: _, [] => false
  | p :: ps, t :: ts => p == t && leadsWith ps ts

/-- Does `pat` occur contiguously inside `text`? -/
def hasSubList (text pat : List Char) : Bool :=
  match text with
  | [] => pat.isEmpty
  | _ :: ts => leadsWith pat text || hasSubList ts pat

/-- `s.includes(pat)`. -/
def strIncludes (s pat : String) : Bool := hasSubList s.data pat.data

/-- `s.padStart(2, '0')`. -/
def padStart2 (s : String) : String :=
  if s.length < 2 then ⟨List.replicate (2 - s.length) '0'⟩ ++ s else s

/-- The decimal digit character for `n < 10`. -/
def decDigitChar (n : Nat) : Char := Char.ofNat (48 + n)

/-- Fuel-driven digit expansion; the fuel only needs to exceed the number. -/
def natDecimalAux : Nat → Nat → List Char
  | 0, _ => []
  | fuel + 1, n =>
    if n < 10 then [decDigitChar n]
    else natDecimalAux fuel (n / 10) ++ [decDigitChar (n % 10)]

/-- Decimal digit list of a natural number, most significant first, as
JavaScript's `Number.prototype.toString` renders a nonnegative integer. -/
def natDecimal (n : Nat) : List Char := natDecimalAux (n + 1) n

/-- `n.toString()` for a nonnegative integer `n`. -/
def natToString (n : Nat) : String := ⟨natDecimal n⟩

/-! ## SHA-256 (model of `crypto.subtle.digest('SHA-256', bytes)`)

Bytes and 32-bit words are `Nat` values; every word operation is reduced
`% 2^32`. -/

/-- UTF-8 encoding of one character as a byte list (`TextEncoder`). -/
def utf8Encode (c : Char) : List Nat :=
  let n := c.toNat
  if n < 128 then [n]
  else if n < 2048 then
    [192 ||| (n >>> 6), 128 ||| (n &&& 63)]
  else if n < 65536 then
    [224 ||| (n >>> 12), 128 ||| ((n >>> 6) &&& 63), 128 ||| (n &&& 63)]
  else
    [240 ||| (n >>> 18), 128 ||| ((n >>> 12) &&& 63),
     128 ||| ((n >>> 6) &&& 63), 128 ||| (n &&& 63)]

/-- `new TextEncoder().encode(s)`: the UTF-8 bytes of `s`. -/
def utf8Bytes (s : String) : List Nat := s.data.flatMap utf8Encode

/-- Truncation to a 32-bit word. -/
def w32 (n : Nat) : Nat := n % 4294967296

/-- 32-bit right rotation. -/
def rotr32 (x n : Nat) : Nat := w32 ((x >>> n) ||| (x <<< (32 - n)))

def sha256ch (x y z : Nat) : Nat := (x &&& y) ^^^ ((x ^^^ 4294967295) &&& z)

def sha256maj (x y z : Nat) : Nat := (x &&& y) ^^^ (x &&& z) ^^^ (y &&& z)

def bigSigma0 (x : Nat) : Nat := rotr32 x 2 ^^^ rotr32 x 13 ^^^ rotr32 x 22

def bigSigma1 (x : Nat) : Nat := rotr32 x 6 ^^^ rotr32 x 11 ^^^ rotr32 x 25

def smallSigma0 (x : Nat) : Nat := rotr32 x 7 ^^^ rotr32 x 18 ^^^ (x >>> 3)

def smallSigma1 (x : Nat) : Nat := rotr32 x 17 ^^^ rotr32 x 19 ^^^ (x >>> 10)

/-- The 64 SHA-256 round constants. -/
def sha256K : List Nat :=
  [1116352408, 1899447441, 3049323471, 3921009573,
   961987163, 1508970993, 2453635748, 2870763221,
   3624381080, 310598401, 607225278, 1426881987,
   1925078388, 2162078206, 2614888103, 3248222580,
   3835390401, 4022224774, 264347078, 604807628,
   770255983, 1249150122, 1555081692, 1996064986,
   2554220882, 2821834349, 2952996808, 3210313671,
   3336571891, 3584528711, 113926993, 338241895,
   666307205, 773529912, 1294757372, 1396182291,
   1695183700, 1986661051, 2177026350, 2456956037,
   2730485921, 2820302411, 3259730800, 3345764771,
   3516065817, 3600352804, 4094571909, 275423344,
   430227734, 506948616, 659060556, 883997877,
   958139571, 1322822218, 1537002063, 1747873779,
   1955562222, 2024104815, 2227730452, 2361852424,
   2428436474, 2756734187, 3204031479, 3329325298]

/-- MD padding: append `0x80`, zero bytes, and the 64-bit big-endian bit
length, reaching a multiple of 64 bytes. -/
def sha256pad (msg : List Nat) : List Nat :=
  let len := msg.length
  let bitLen := len * 8
  let zeros := (119 - len % 64) % 64
  msg ++ 128 :: List.replicate zeros 0 ++
    [(bitLen >>> 56) % 256, (bitLen >>> 48) % 256, (bitLen >>> 40) % 256,
     (bitLen >>> 32) % 256, (bitLen >>> 24) % 256, (bitLen >>> 16) % 256,
     (bitLen >>> 8) % 256, bitLen % 256]

/-- Group bytes into big-endian 32-bit words. -/
def bytesToWords : List Nat → List Nat
  | b0 :: b1 :: b2 :: b3 :: rest =>
    (b0 * 16777216 + b1 * 65536 + b2 * 256 + b3) :: bytesToWords rest
  | _ => []

/-- One step of the message-schedule extension: append the next word. -/
def sha256extendStep (ws : List Nat) : List Nat :=
  let len := ws.length
  ws ++ [w32 (smallSigma1 (ws.getD (len - 2) 0) + ws.getD (len - 7) 0 +
              smallSigma0 (ws.getD (len - 15) 0) + ws.getD (len - 16) 0)]

/-- The eight 32-bit working variables of the compression function. -/
structure SHA256State where
  a : Nat
  b : Nat
  c : Nat
  d : Nat
  e : Nat
  f : Nat
  g : Nat
  h : Nat
deriving DecidableEq

/-- Initial SHA-256 hash value. -/
def sha256init : SHA256State :=
  { a := 0x6a09e667, b := 0xbb67ae85, c := 0x3c6ef372, d := 0xa54ff53a,
    e := 0x510e527f, f := 0x9b05688c, g := 0x1f83d9ab, h := 0x5be0cd19 }

/-- One compression round, consuming one `(k, w)` pair. -/
def sha256round (st : SHA256State) (kw : Nat × Nat) : SHA256State :=
  let t1 := w32 (st.h + bigSigma1 st.e + sha256ch st.e st.f st.g + kw.1 + kw.2)
  let t2 := w32 (bigSigma0 st.a + sha256maj st.a st.b st.c)
  { a := w32 (t1 + t2), b := st.a, c := st.b, d := st.c,
    e := w32 (st.d + t1), f := st.e, g := st.f, h := st.g }

/-- Compress one 64-byte block into the running hash state. -/
def sha256block (hs : SHA256State) (block : List Nat) : SHA256State :=
  let w := Nat.repeat sha256extendStep 48 (bytesToWords block)
  let st := (sha256K.zip w).foldl sha256round hs
  { a := w32 (hs.a + st.a), b := w32 (hs.b + st.b), c := w32 (hs.c + st.c),
    d := w32 (hs.d + st.d), e := w32 (hs.e + st.e), f := w32 (hs.f + st.f),
    g := w32 (hs.g + st.g), h := w32 (hs.h + st.h) }

/-- Fuel-driven 64-byte chunking; a fuel of the list length suffices. -/
def toBlocksAux : Nat → List Nat → List (List Nat)
  | 0, _ => []
  | _ + 1, [] => []
  | fuel + 1, x :: xs => ((x :: xs).take 64) :: toBlocksAux fuel ((x :: xs).drop 64)

/-- Split a (padded) byte list into 64-byte blocks. -/
def toBlocks (l : List Nat) : List (List Nat) := toBlocksAux l.length l

/-- Big-endian bytes of one 32-bit word. -/
def wordBytes (x : Nat) : List Nat :=
  [(x >>> 24) % 256, (x >>> 16) % 256, (x >>> 8) % 256, x % 256]

/-- The 32-byte SHA-256 digest of a byte list. -/
def sha256 (msg : List Nat) : List Nat :=
  let st := (toBlocks (sha256pad msg)).foldl sha256block sha256init
  wordBytes st.a ++ wordBytes st.b ++ wordBytes st.c ++ wordBytes st.d ++
  wordBytes st.e ++ wordBytes st.f ++ wordBytes st.g ++ wordBytes st.h

/-- The lowercase hex digit character for `n < 16`
(JS `b.toString(16)` digits). -/
def hexDigitChar (n : Nat) : Char :=
  if n < 10 then Char.ofNat (48 + n) else Char.ofNat (87 + n)

/-- `b.toString(16).padStart(2, '0')` for a byte `b < 256`. -/
def byteToHex (b : Nat) : String := ⟨[hexDigitChar (b / 16), hexDigitChar (b % 16)]⟩

/-- The 64-character lowercase hex SHA-256 digest of the UTF-8 bytes of `s`,
as the worker's `hashArray.map(b => b.toString(16).padStart(2, '0')).join('')`
computes it. -/
def sha256hex (s : String) : String :=
  String.join ((sha256 (utf8Bytes s)).map byteToHex)

/-! ## The WHATWG `URL` object

Model of the platform's `URL` class for the
`scheme://host[:port]/path?query#fragment` shape the worker manipulates.
`parseURL` returning `none` models the exception thrown by `new URL(...)`
on a malformed input; on success `host` is the (lowercased) `hostname`,
`path` the `pathname`, `query` the search string without its `?`, and
`fragment` the hash without its `#`. -/

structure URL where
  scheme : String
  host : String
  port : Option String
  path : String
  query : Option String
  fragment : Option String
deriving DecidableEq

/-- Characters allowed in a URL scheme. -/
def isSchemeChar (c : Char) : Bool :=
  c.isAlpha || c.isDigit || c == '+' || c == '-' || c == '.'

/-- `new URL(s)`, for absolute URLs of the shape
`scheme://host[:port][/path][?query][#fragment]`; `none` models the
`TypeError` thrown on malformed input (no `scheme://`, empty host). -/
def parseURL (s : String) : Option URL :=
  let p1 := breakAtChar '#' s.data
  let p2 := breakAtChar '?' p1.1
  let ps := breakAtChar ':' p2.1
  match ps.2 with
  | none => none
  | some rest =>
    if ps.1 ≠ [] ∧ (ps.1.headD ' ').isAlpha = true ∧
        ps.1.all isSchemeChar = true then
      if rest.headD ' ' = '/' ∧ rest.tail.headD ' ' = '/' ∧ 2 ≤ rest.length then
        let hostPath := rest.drop 2
        let p3 := breakAtChar '/' hostPath
        let p4 := breakAtChar ':' p3.1
        if p4.1 = [] then none
        else some
          { scheme := ⟨ps.1.map lowerChar⟩
            host := ⟨p4.1.map lowerChar⟩
            port := p4.2.map (⟨·⟩)
            path := ⟨'/' :: p3.2.getD []⟩
            query := p2.2.map (⟨·⟩)
            fragment := p1.2.map (⟨·⟩) }
      else none
    else none

/-- Helper for the serializer: an optional component with its separator. -/
def optPart (pre : String) : Option String → String
  | none => ""
  | some s => pre ++ s

/-- `url.toString()`: the WHATWG serialization of a parsed URL. -/
def URL.toStr (u : URL) : String :=
  u.scheme ++ "://" ++ u.host ++ optPart ":" u.port ++ u.path ++
  optPart "?" u.query ++ optPart "#" u.fragment

/-! ## Worker helper functions (`src/worker.ts`, revised version) -/

/-- The host allow-list of `isDiscordUrl` (`validDomains`). -/
def validDomains : List String :=
  ["cdn.discordapp.com", "media.discordapp.net", "images-ext-1.discordapp.net"]

/-- `isDiscordUrl(url)`: the URL parses, its hostname is one of the three
allow-listed domains, and its pathname contains `/attachments/` or
`/external/`.  A parse failure is caught and reported as `false`. -/
def isDiscordUrl (url : String) : Bool :=
  match parseURL url with
  | none => false
  | some u =>
    if validDomains.any (fun d => u.host == d) then
      strIncludes u.path "/attachments/" || strIncludes u.path "/external/"
    else false

/-- `getAlternativeDiscordUrl(url)`: swap `cdn.discordapp.com` and
`media.discordapp.net`; any other host, or a parse failure, returns the
input unchanged. -/
def getAlternativeDiscordUrl (url : String) : String :=
  match parseURL url with
  | none => url
  | some u =>
    if u.host == "cdn.discordapp.com" then
      URL.toStr { u with host := "media.discordapp.net" }
    else if u.host == "media.discordapp.net" then
      URL.toStr { u with host := "cdn.discordapp.com" }
    else url

/-- `createShortHash(url)` (revised version, lines 126-136): parse the URL,
clear its query (`urlObj.search = ''`), re-serialize, SHA-256 the UTF-8
bytes and keep the first 8 hex characters.  `new URL(url)` throwing on a
malformed input is modelled by `none`. -/
def createShortHash (url : String) : Option String :=
  match parseURL url with
  | none => none
  | some u => some ((sha256hex (URL.toStr { u with query := none })).take 8)

/-- `createShortHash(url)` (original version, lines 5-11): truncate the raw
string at the first `?` (`url.split('?')[0]`) and hash that; never throws. -/
def createShortHashOrig (url : String) : String :=
  (sha256hex (jsSplitHead url '?')).take 8

/-- The recognized image extensions (`['jpg', 'jpeg', 'png', 'gif', 'webp']`). -/
def imageExts : List String := ["jpg", "jpeg", "png", "gif", "webp"]

/-- The file-extension computation of the success path:
`pathParts = pathname.split('/')`, `fileName = pathParts[last].split('?')[0]`,
`fileExt = fileName.split('.').pop()?.toLowerCase() || ''`. -/
def fileExtOf (u : URL) : String :=
  strLower (jsSplitTail (jsSplitHead (jsSplitTail u.path '/') '?') '.')

/-- `fileExtOf` applied through `new URL`; `""` for a non-parsing URL. -/
def extOfUrl (url : String) : String :=
  match parseURL url with
  | none => ""
  | some u => fileExtOf u

/-- The worker's date handling: `getFullYear()`, 0-based `getMonth()`,
`getDate()` of the `new Date()` taken at write time. -/
structure SimDate where
  year : Nat
  month : Nat
  day : Nat
deriving DecidableEq

/-- `folderName`: `year.toString() + (month + 1).toString().padStart(2, '0')
+ day.toString().padStart(2, '0')`. -/
def folderName (d : SimDate) : String :=
  natToString d.year ++ padStart2 (natToString (d.month + 1)) ++
  padStart2 (natToString d.day)

/-- The cache-key derivation of the write path, read off the success path of
the handler: date folder, first 8 hex characters of SHA-256 of the
query-stripped URL, and the lowercased extension of the last path segment. -/
def derivePath (d : SimDate) (url : String) : Option String :=
  match createShortHash url, parseURL url with
  | some h, some u => some (folderName d ++ "/" ++ h ++ "." ++ fileExtOf u)
  | _, _ => none

/-! ## Collaborators: the fetch network and the R2 bucket -/

/-- An upstream HTTP response: status, status text, response headers and
body bytes. -/
structure HttpResponse where
  status : Nat
  statusText : String
  headers : List (String × String)
  body : List Nat
deriving DecidableEq

/-- `response.ok`: status in the range 200-299. -/
def HttpResponse.ok (r : HttpResponse) : Bool :=
  decide (200 ≤ r.status) && decide (r.status ≤ 299)

/-- Outcome of one outbound `fetch`: a response, or a thrown network error. -/
inductive FetchResult where
  | resp (r : HttpResponse)
  | err (msg : String)

/-- The network, as a deterministic oracle from request URL to outcome.
The worker always sends the same fixed headers, so the oracle is keyed by
URL alone. -/
def FetchOracle : Type := String → FetchResult

/-- Case-insensitive response-header lookup (`response.headers.get(k)`). -/
def headersGet (hs : List (String × String)) (k : String) : Option String :=
  (hs.find? (fun p => strLower p.1 == strLower k)).map (fun p => p.2)

/-- One outbound request as issued by the worker: the URL fetched and the
request headers sent with it. -/
structure FetchCall where
  url : String
  reqHeaders : List (String × String)
deriving DecidableEq

/-- The fixed browser-like request headers of `fetchOptions`. -/
def fetchOptionsHeaders : List (String × String) :=
  [("User-Agent", "Mozilla/5.0 (Macintosh; Intel Mac OS X 10_15_7) AppleWebKit/537.36 (KHTML, like Gecko) Chrome/122.0.0.0 Safari/537.36"),
   ("Accept", "image/avif,image/webp,image/apng,image/svg+xml,image/*,*/*;q=0.8"),
   ("Accept-Language", "en-US,en;q=0.9"),
   ("Referer", "https://discord.com/"),
   ("Origin", "https://discord.com")]

/-- The HTTP metadata an R2 object carries (spec section 6: the stored
object carries `body` and `httpMetadata.contentType`). -/
structure R2HTTPMetadata where
  contentType : Option String
  cacheControl : Option String
deriving DecidableEq

/-- The options object the worker passes to `MY_BUCKET.put`: it places
`contentType` at the top level, next to (not inside) `httpMetadata`. -/
structure R2PutOptions where
  contentType : Option String
  httpMetadata : R2HTTPMetadata
deriving DecidableEq

/-- A stored R2 object: body bytes and HTTP metadata. -/
structure R2Object where
  body : List Nat
  httpMetadata : R2HTTPMetadata
deriving DecidableEq

/-- The bucket: a key/value store mapping paths to stored objects. -/
def Bucket : Type := List (String × R2Object)

instance : DecidableEq Bucket :=
  inferInstanceAs (DecidableEq (List (String × R2Object)))

/-- `MY_BUCKET.put(key, body, options)`: stores the body under the key,
with the HTTP metadata taken from the options' `httpMetadata` field (the
R2 interface of spec section 6 carries content type inside `httpMetadata`;
an unrecognized top-level `contentType` option is not part of the stored
metadata). -/
def bucketPut (b : Bucket) (key : String) (body : List Nat)
    (opts : R2PutOptions) : Bucket :=
  (key, { body := body, httpMetadata := opts.httpMetadata }) ::
    b.filter (fun kv => !(kv.1 == key))

/-- `MY_BUCKET.get(key)`: `none` is the normal not-found outcome. -/
def bucketGet (b : Bucket) (key : String) : Option R2Object :=
  (b.find? (fun kv => kv.1 == key)).map (fun kv => kv.2)

/-! ## The worker (`export default { fetch }`, revised version) -/

/-- The fields of the success response body. -/
structure CacheSuccess where
  cached_url : String
  original_url : String
  final_url : String
  hash : String
  path : String
deriving DecidableEq

/-- The JSON (or text) body of a worker response, as structured data. -/
inductive Payload where
  | errInvalidJson
  | errUrlRequired
  | errInvalidDiscordUrl (provided : String)
  | errFetchFailed (message : String) (url : String) (attempted : List String)
      (respHeaders : List (String × String))
  | errInvalidContentType (ct : Option String)
  | errInvalidExtension (ext : String)
  | errFetchException (message : String) (url : String)
  | success (s : CacheSuccess)
  | fileBody (bytes : List Nat) (ct : String) (cc : String)
  | textMsg (t : String)
deriving DecidableEq

/-- A worker response: HTTP status and structured body. -/
structure SimResponse where
  status : Nat
  payload : Payload
deriving DecidableEq

/-- The parsed request body of `POST /cache`: a JSON parse failure, or a
parsed object whose `url` field may be absent. -/
inductive ReqBody where
  | invalidJson
  | json (url : Option String)

/-- JS falsiness of the `url` field (`!discordUrl`): absent or empty. -/
def jsFalsy : Option String → Bool
  | none => true
  | some t => t == ""

/-- `contentType?.startsWith('image/')`, with a missing header giving
`undefined` and hence a falsy result. -/
def ctStartsImage : Option String → Bool
  | none => false
  | some s => leadsWith ("image/").data s.data

/-- Lines 241-307: everything after the fetch sequence has settled on a
response: the non-ok error report, content-type validation, extension
validation, hashing, key derivation, the `put`, and the success body.
Returns the worker response and the bucket after any write. -/
def processResponse (d : SimDate) (b : Bucket) (discordUrl finalUrl : String)
    (resp : HttpResponse) (attempted : List String) : SimResponse × Bucket :=
  if resp.ok = false then
    ({ status := resp.status,
       payload := .errFetchFailed
         ("Failed to fetch Discord image: " ++ natToString resp.status ++ " " ++
          resp.statusText) discordUrl attempted resp.headers }, b)
  else
    let ct := headersGet resp.headers "content-type"
    if ctStartsImage ct = false then
      ({ status := 400, payload := .errInvalidContentType ct }, b)
    else
      match parseURL finalUrl with
      | none => ({ status := 500,
                   payload := .errFetchException "Invalid URL" discordUrl }, b)
      | some u =>
        let fileExt := fileExtOf u
        if fileExt == "" || !(imageExts.contains fileExt) then
          ({ status := 400, payload := .errInvalidExtension fileExt }, b)
        else
          match createShortHash discordUrl with
          | none => ({ status := 500,
                       payload := .errFetchException "Invalid URL" discordUrl }, b)
          | some shortHash =>
            let fullPath := folderName d ++ "/" ++ shortHash ++ "." ++ fileExt
            let b2 := bucketPut b fullPath resp.body
              { contentType := ct,
                httpMetadata :=
                  { contentType := none,
                    cacheControl := some "public, max-age=31536000" } }
            ({ status := 200,
               payload := .success
                 { cached_url := "https://imgcdn.ww0.ca/" ++ fullPath,
                   original_url := discordUrl, final_url := finalUrl,
                   hash := shortHash, path := fullPath } }, b2)

/-- The `POST /cache` handler (lines 180-319).  Returns the worker
response, the ordered list of outbound fetch calls actually made, and the
bucket after any write. -/
def handlePostCache (fetchO : FetchOracle) (d : SimDate) (b : Bucket)
    (body : ReqBody) : SimResponse × List FetchCall × Bucket :=
  match body with
  | .invalidJson => ({ status := 400, payload := .errInvalidJson }, [], b)
  | .json urlField =>
    if jsFalsy urlField then
      ({ status := 400, payload := .errUrlRequired }, [], b)
    else
      let discordUrl := urlField.getD ""
      if isDiscordUrl discordUrl = false then
        ({ status := 400, payload := .errInvalidDiscordUrl discordUrl }, [], b)
      else
        match fetchO discordUrl with
        | .err e =>
          ({ status := 500,
             payload := .errFetchException ("Fetch error: " ++ e) discordUrl },
           [⟨discordUrl, fetchOptionsHeaders⟩], b)
        | .resp r1 =>
          if !r1.ok && r1.status == 403 then
            let alt := getAlternativeDiscordUrl discordUrl
            if alt != discordUrl then
              match fetchO alt with
              | .err e =>
                ({ status := 500,
                   payload := .errFetchException ("Fetch error: " ++ e) discordUrl },
                 [⟨discordUrl, fetchOptionsHeaders⟩, ⟨alt, fetchOptionsHeaders⟩], b)
              | .resp r2 =>
                let pr := processResponse d b discordUrl alt r2 [discordUrl, alt]
                (pr.1, [⟨discordUrl, fetchOptionsHeaders⟩, ⟨alt, fetchOptionsHeaders⟩],
                 pr.2)
            else
              let pr := processResponse d b discordUrl discordUrl r1 [discordUrl]
              (pr.1, [⟨discordUrl, fetchOptionsHeaders⟩], pr.2)
          else
            let pr := processResponse d b discordUrl discordUrl r1 [discordUrl]
            (pr.1, [⟨discordUrl, fetchOptionsHeaders⟩], pr.2)

/-- The `GET` file handler (lines 321-334): look the path (without its
leading slash) up in the bucket; serve the stored body with the stored
content type (default `application/octet-stream`), or 404. -/
def handleGet (b : Bucket) (pathname : String) : SimResponse :=
  match bucketGet b (pathname.drop 1) with
  | none => { status := 404, payload := .textMsg "File not found" }
  | some obj =>
    { status := 200,
      payload := .fileBody obj.body
        (obj.httpMetadata.contentType.getD "application/octet-stream")
        "public, max-age=31536000" }

/-- The router of `fetch(request, env)`: `POST /cache`, `GET` on any other
path, 404 otherwise. -/
def workerFetch (fetchO : FetchOracle) (d : SimDate) (b : Bucket)
    (method : String) (pathname : String) (body : ReqBody) :
    SimResponse × List FetchCall × Bucket :=
  if method == "POST" && pathname == "/cache" then
    handlePostCache fetchO d b body
  else if method == "GET" && !(pathname == "/cache") then
    (handleGet b pathname, [], b)
  else
    ({ status := 404, payload := .textMsg "Not found" }, [], b)

/-! ## Definitions used only to state claims, and concrete test fixtures -/

/-- Split a character list on every occurrence of `c` (JS `split`),
accumulator-driven so that it evaluates by kernel reduction. -/
def splitOnCharAux (c : Char) : List Char → List Char → List (List Char)
  | [], acc => [acc.reverse]
  | x :: xs, acc =>
    if x = c then acc.reverse :: splitOnCharAux c xs []
    else splitOnCharAux c xs (x :: acc)

/-- Modelled from the spec: "Attempt the URL with non-essential query
parameters stripped (retain only an allow-listed subset such as
format/quality, if present)".  No such stripping exists anywhere in the
worker source; this definition only serves to state that the first fetch
attempt does not perform it. -/
def stripNonEssentialParams (url : String) : String :=
  match parseURL url with
  | none => url
  | some u =>
    match u.query with
    | none => URL.toStr u
    | some q =>
      let parts := splitOnCharAux '&' q.data []
      let kept := parts.filter (fun p =>
        (breakAtChar '=' p).1 == "format".data ||
        (breakAtChar '=' p).1 == "quality".data)
      match kept with
      | [] => URL.toStr { u with query := none }
      | _ => URL.toStr { u with query := some ⟨List.intercalate ['&'] kept⟩ }

/-- Modelled from the spec: "strip all query parameters entirely and retry
once more" — the URL variant such a third attempt would request.  The
worker never constructs this variant. -/
def stripAllParams (url : String) : String :=
  match parseURL url with
  | none => url
  | some u => URL.toStr { u with query := none }

/-- The first eight characters of an optional storage path: its date part. -/
def firstEight (o : Option String) : Option (List Char) :=
  o.map (fun p => p.data.take 8)

/-- Fixture: an acceptable source URL carrying signing-style parameters. -/
def urlC : String := "https://cdn.discordapp.com/attachments/1/2/pic.png?sig=abc"

/-- Fixture: the parsed form of `urlC`. -/
def uC : URL :=
  { scheme := "https", host := "cdn.discordapp.com", port := none,
    path := "/attachments/1/2/pic.png", query := some "sig=abc",
    fragment := none }

/-- Fixture: a write-time date. -/
def dateC : SimDate := ⟨2026, 0, 15⟩

/-- Fixture: a PNG response. -/
def respPngC : HttpResponse :=
  { status := 200, statusText := "OK",
    headers := [("content-type", "image/png")], body := [137, 80, 78, 71] }

/-- Fixture: a 403 response. -/
def resp403C : HttpResponse :=
  { status := 403, statusText := "Forbidden",
    headers := [("retry-after", "5")], body := [] }

/-- Fixture: a 500 response. -/
def resp500C : HttpResponse :=
  { status := 500, statusText := "Internal Server Error", headers := [],
    body := [] }

/-- Fixture: a network that serves the PNG for every URL. -/
def oracleOkC : FetchOracle := fun _ => .resp respPngC

/-- Fixture: a network that rejects `urlC` with 403 but serves the PNG on
its mirror-host variant. -/
def oracleSwapC : FetchOracle := fun u =>
  if u == urlC then .resp resp403C else .resp respPngC

/-- Fixture: a network that answers 403 everywhere. -/
def oracle403C : FetchOracle := fun _ => .resp resp403C

/-- Fixture: a network that answers 500 everywhere. -/
def oracle500C : FetchOracle := fun _ => .resp resp500C

/-- Fixture: a network that serves an HTML error page everywhere. -/
def oracleHtmlC : FetchOracle := fun _ =>
  .resp { status := 200, statusText := "OK",
          headers := [("content-type", "text/html")], body := [60, 104] }

/-- Fixture: the success record of caching `urlC` through `oracleSwapC` on
`dateC` (hash of `https://cdn.discordapp.com/attachments/1/2/pic.png`). -/
def succSwapC : CacheSuccess :=
  { cached_url := "https://imgcdn.ww0.ca/20260115/ac9d8317.png",
    original_url := urlC,
    final_url := "https://media.discordapp.net/attachments/1/2/pic.png?sig=abc",
    hash := "ac9d8317", path := "20260115/ac9d8317.png" }

/-- Fixture: the success record of caching `urlC` through `oracleOkC`. -/
def succOkC : CacheSuccess :=
  { cached_url := "https://imgcdn.ww0.ca/20260115/ac9d8317.png",
    original_url := urlC, final_url := urlC,
    hash := "ac9d8317", path := "20260115/ac9d8317.png" }

/-- Fixture: an acceptable URL with a query and a fragment, on which the two
short-hash versions hash different strings. -/
def fragUrlC : String := "https://cdn.discordapp.com/attachments/1/2/a.png?x=1#f"

/-- A scheme character that survives `lowerChar` unchanged. -/
def schemeCharLower (c : Char) : Bool := isSchemeChar c && (lowerChar c == c)

/-- A hostname character: none of the structural separators, and fixed by
lowercasing. -/
def hostChar (c : Char) : Bool :=
  !(c == '/' || c == ':' || c == '?' || c == '#') && (lowerChar c == c)

/-- A port character: not a slash, question mark or hash. -/
def portChar (c : Char) : Bool := !(c == '/' || c == '?' || c == '#')

/-- A path character: not a question mark or hash. -/
def pathChar (c : Char) : Bool := !(c == '?' || c == '#')

/-- A query character: not a hash. -/
def queryChar (c : Char) : Bool := !(c == '#')

/-- Well-formedness of a `URL` value: exactly the invariants `parseURL`
establishes, and what `URL.toStr` needs for a faithful round trip. -/
def URL.wf (u : URL) : Prop :=
  u.scheme.data ≠ [] ∧ (u.scheme.data.headD ' ').isAlpha = true ∧
  u.scheme.data.all schemeCharLower = true ∧
  u.host.data ≠ [] ∧ u.host.data.all hostChar = true ∧
  u.port.all (fun p => p.data.all portChar) = true ∧
  u.path.data.headD ' ' = '/' ∧ u.path.data ≠ [] ∧
  u.path.data.all pathChar = true ∧
  u.query.all (fun q => q.data.all queryChar) = true

instance (u : URL) : Decidable u.wf := by
  unfold URL.wf
  exact inferInstance

/-- The character content of an optional URL component with its separator. -/
def optData (pre : Char) : Option String → List Char
  | none => []
  | some s => pre :: s.data

/-- The numeric value a decimal digit string denotes. -/
def strVal (l : List Char) : Nat := l.foldl (fun a c => a * 10 + (c.toNat - 48)) 0

/-! ## Character lemmas -/

theorem char_isUpper_iff (c : Char) :
    c.isUpper = true ↔ 65 ≤ c.toNat ∧ c.toNat ≤ 90 := by
  simp [Char.isUpper, Char.le_def, Char.toNat]
  exact Iff.rfl

theorem char_isLower_iff (c : Char) :
    c.isLower = true ↔ 97 ≤ c.toNat ∧ c.toNat ≤ 122 := by
  simp [Char.isLower, Char.le_def, Char.toNat]
  exact Iff.rfl

theorem char_toNat_ofNat (n : Nat) (h : n < 55296) : (Char.ofNat n).toNat = n := by
  have hv : n.isValidChar := Or.inl h
  simp [Char.ofNat, hv, Char.ofNatAux, Char.toNat]
  rfl

theorem lowerChar_toNat_upper {c : Char} (h : c.isUpper = true) :
    (lowerChar c).toNat = c.toNat + 32 := by
  have hr := (char_isUpper_iff c).mp h
  simp [lowerChar, h]
  exact char_toNat_ofNat _ (by omega)

theorem lowerChar_not_upper {c : Char} (h : c.isUpper = false) : lowerChar c = c := by
  simp [lowerChar, h]

theorem lowerChar_isLower_of_upper {c : Char} (h : c.isUpper = true) :
    (lowerChar c).isLower = true := by
  have hr := (char_isUpper_iff c).mp h
  rw [char_isLower_iff, lowerChar_toNat_upper h]
  omega

theorem lowerChar_idem (c : Char) : lowerChar (lowerChar c) = lowerChar c := by
  by_cases h : c.isUpper
  · have h1 := lowerChar_isLower_of_upper h
    have h2 : (lowerChar c).isUpper = false := by
      rw [char_isLower_iff] at h1
      cases hu : (lowerChar c).isUpper
      · rfl
      · rw [char_isUpper_iff] at hu; omega
    exact lowerChar_not_upper h2
  · simp [lowerChar_not_upper (Bool.of_not_eq_true h)]

theorem lowerChar_isAlpha {c : Char} (h : c.isAlpha = true) :
    (lowerChar c).isAlpha = true := by
  by_cases hu : c.isUpper
  · simp [Char.isAlpha, lowerChar_isLower_of_upper hu]
  · rw [lowerChar_not_upper (Bool.of_not_eq_true hu)]; exact h

theorem lowerChar_isSchemeChar {c : Char} (h : isSchemeChar c = true) :
    isSchemeChar (lowerChar c) = true := by
  by_cases hu : c.isUpper
  · simp [isSchemeChar, Char.isAlpha, lowerChar_isLower_of_upper hu]
  · rw [lowerChar_not_upper (Bool.of_not_eq_true hu)]; exact h

/-- `lowerChar` can only produce a character below code point 97 by fixing it. -/
theorem eq_of_lowerChar_eq_low {c s : Char} (hs : s.toNat < 97)
    (he : lowerChar c = s) : c = s := by
  by_cases h : c.isUpper
  · exfalso
    have h1 := lowerChar_toNat_upper h
    have h2 := (char_isUpper_iff c).mp h
    rw [he] at h1
    omega
  · rwa [lowerChar_not_upper (Bool.of_not_eq_true h)] at he

/-! ## `breakAtChar` lemmas -/

theorem breakAtChar_of_not_mem {c : Char} {l : List Char} (h : c ∉ l) :
    breakAtChar c l = (l, none) := by
  induction l with
  | nil => rfl
  | cons x xs ih =>
    have hx : ¬ x = c := fun he => h (he ▸ List.mem_cons_self x xs)
    have hxs : c ∉ xs := fun hm => h (List.mem_cons_of_mem _ hm)
    simp [breakAtChar, hx, ih hxs]

theorem breakAtChar_append {c : Char} {l1 : List Char} (l2 : List Char)
    (h : c ∉ l1) : breakAtChar c (l1 ++ c :: l2) = (l1, some l2) := by
  induction l1 with
  | nil => simp [breakAtChar]
  | cons x xs ih =>
    have hx : ¬ x = c := fun he => h (he ▸ List.mem_cons_self x xs)
    have hxs : c ∉ xs := fun hm => h (List.mem_cons_of_mem _ hm)
    simp [breakAtChar, hx, ih hxs]

theorem breakAtChar_none {c : Char} {l : List Char}
    (h : (breakAtChar c l).2 = none) : (breakAtChar c l).1 = l := by
  induction l with
  | nil => rfl
  | cons x xs ih =>
    by_cases hx : x = c
    · simp [breakAtChar, hx] at h
    · simp only [breakAtChar, if_neg hx] at h ⊢
      simp only [ih h]

theorem breakAtChar_some {c : Char} {l t : List Char}
    (h : (breakAtChar c l).2 = some t) : l = (breakAtChar c l).1 ++ c :: t := by
  induction l generalizing t with
  | nil => simp [breakAtChar] at h
  | cons x xs ih =>
    by_cases hx : x = c
    · simp only [breakAtChar, if_pos hx] at h ⊢
      cases h
      simp [hx]
    · simp only [breakAtChar, if_neg hx] at h ⊢
      rw [List.cons_append, ← ih h]

theorem not_mem_breakAtChar_fst (c : Char) (l : List Char) :
    c ∉ (breakAtChar c l).1 := by
  induction l with
  | nil => simp [breakAtChar]
  | cons x xs ih =>
    by_cases hx : x = c
    · simp [breakAtChar, hx]
    · simp only [breakAtChar, if_neg hx]
      intro hmem
      rcases List.mem_cons.mp hmem with he | hm
      · exact hx he.symm
      · exact ih hm

theorem mem_of_breakAtChar_fst {c x : Char} {l : List Char}
    (h : x ∈ (breakAtChar c l).1) : x ∈ l := by
  induction l with
  | nil => simp [breakAtChar] at h
  | cons y ys ih =>
    by_cases hy : y = c
    · simp [breakAtChar, hy] at h
    · simp only [breakAtChar, if_neg hy] at h
      rcases List.mem_cons.mp h with he | hm
      · exact he ▸ List.mem_cons_self y ys
      · exact List.mem_cons_of_mem _ (ih hm)

theorem mem_of_breakAtChar_snd {c x : Char} {l t : List Char}
    (ht : (breakAtChar c l).2 = some t) (h : x ∈ t) : x ∈ l := by
  rw [breakAtChar_some ht]
  exact List.mem_append_right _ (List.mem_cons_of_mem _ h)

/-! ## String representation lemmas -/

theorem strMk_data (s : String) : (⟨s.data⟩ : String) = s := String.ext rfl

theorem map_lowerChar_fixed {l : List Char}
    (h : ∀ c ∈ l, lowerChar c = c) : l.map lowerChar = l := by
  induction l with
  | nil => rfl
  | cons x xs ih =>
    simp only [List.map_cons, h x (List.mem_cons_self x xs)]
    rw [ih (fun c hc => h c (List.mem_cons_of_mem _ hc))]

/-! ## URL well-formedness and the parse/serialize round trip -/

theorem optPart_data (pre : Char) (o : Option String) :
    (optPart ⟨[pre]⟩ o).data = optData pre o := by
  cases o with
  | none => rfl
  | some s => simp [optPart, optData, String.data_append]

theorem breakAtChar_optData (c : Char) (pre : List Char) (o : Option String)
    (h : c ∉ pre) :
    breakAtChar c (pre ++ optData c o) = (pre, o.map String.data) := by
  cases o with
  | none => simpa [optData] using breakAtChar_of_not_mem h
  | some s => simpa [optData] using breakAtChar_append s.data h

/-- The serialized URL, character by character. -/
theorem toStr_data (u : URL) : (URL.toStr u).data =
    ((u.scheme.data ++ ':' :: '/' :: '/' ::
        (u.host.data ++ optData ':' u.port ++ u.path.data))
      ++ optData '?' u.query) ++ optData '#' u.fragment := by
  have hp : (":" : String) = ⟨[':']⟩ := rfl
  have hq : ("?" : String) = ⟨['?']⟩ := rfl
  have hf : ("#" : String) = ⟨['#']⟩ := rfl
  simp only [URL.toStr, hp, hq, hf, String.data_append, optPart_data]
  have hsep : ("://" : String).data = [':', '/', '/'] := rfl
  simp [hsep, List.append_assoc]

theorem not_mem_of_all {l : List Char} {p : Char → Bool} (hall : l.all p = true)
    {c : Char} (hc : p c = false) : c ∉ l := by
  intro hm
  have h2 := List.all_eq_true.mp hall c hm
  rw [hc] at h2
  exact Bool.false_ne_true h2

theorem not_mem_optData {c pre : Char} {o : Option String} {p : String → Bool}
    (hall : o.all p = true) (hne : c ≠ pre)
    (hchar : ∀ s, o = some s → p s = true → c ∉ s.data) :
    c ∉ optData pre o := by
  cases o with
  | none => simp [optData]
  | some s =>
    simp only [optData, List.mem_cons, not_or]
    refine ⟨hne, hchar s rfl ?_⟩
    simpa [Option.all] using hall

/-- Serializing a well-formed URL and re-parsing it recovers the URL. -/
theorem parseURL_toStr {u : URL} (h : u.wf) : parseURL (URL.toStr u) = some u := by
  obtain ⟨hs1, hs2, hs3, hh1, hh2, hpt, hp1, hp2, hp3, hq⟩ := h
  obtain ⟨dr, hdr⟩ : ∃ dr, u.path.data = '/' :: dr := by
    cases hd : u.path.data with
    | nil => exact absurd hd hp2
    | cons x xs =>
      rw [hd] at hp1
      simp only [List.headD_cons] at hp1
      exact ⟨xs, by rw [hp1]⟩
  have hportQ : ('?' : Char) ∉ optData ':' u.port :=
    not_mem_optData hpt (by decide)
      (fun s _ hs => not_mem_of_all hs (by decide))
  have hportH : ('#' : Char) ∉ optData ':' u.port :=
    not_mem_optData hpt (by decide)
      (fun s _ hs => not_mem_of_all hs (by decide))
  have hportSl : ('/' : Char) ∉ optData ':' u.port :=
    not_mem_optData hpt (by decide)
      (fun s _ hs => not_mem_of_all hs (by decide))
  have hqueryH : ('#' : Char) ∉ optData '?' u.query :=
    not_mem_optData hq (by decide)
      (fun s _ hs => not_mem_of_all hs (by decide))
  have hQpre : ('?' : Char) ∉
      u.scheme.data ++ ':' :: '/' :: '/' ::
        (u.host.data ++ optData ':' u.port ++ u.path.data) := by
    intro hm
    rcases List.mem_append.mp hm with hm | hm
    · exact absurd (List.all_eq_true.mp hs3 _ hm) (by decide)
    rcases List.mem_cons.mp hm with hm | hm
    · exact absurd hm (by decide)
    rcases List.mem_cons.mp hm with hm | hm
    · exact absurd hm (by decide)
    rcases List.mem_cons.mp hm with hm | hm
    · exact absurd hm (by decide)
    rcases List.mem_append.mp hm with hm | hm
    · rcases List.mem_append.mp hm with hm2 | hm2
      · exact absurd (List.all_eq_true.mp hh2 _ hm2) (by decide)
      · exact hportQ hm2
    · exact absurd (List.all_eq_true.mp hp3 _ hm) (by decide)
  have hHpre : ('#' : Char) ∉
      (u.scheme.data ++ ':' :: '/' :: '/' ::
        (u.host.data ++ optData ':' u.port ++ u.path.data)) ++
        optData '?' u.query := by
    intro hm
    rcases List.mem_append.mp hm with hm | hm
    swap
    · exact hqueryH hm
    rcases List.mem_append.mp hm with hm | hm
    · exact absurd (List.all_eq_true.mp hs3 _ hm) (by decide)
    rcases List.mem_cons.mp hm with hm | hm
    · exact absurd hm (by decide)
    rcases List.mem_cons.mp hm with hm | hm
    · exact absurd hm (by decide)
    rcases List.mem_cons.mp hm with hm | hm
    · exact absurd hm (by decide)
    rcases List.mem_append.mp hm with hm | hm
    · rcases List.mem_append.mp hm with hm2 | hm2
      · exact absurd (List.all_eq_true.mp hh2 _ hm2) (by decide)
      · exact hportH hm2
    · exact absurd (List.all_eq_true.mp hp3 _ hm) (by decide)
  have hScolon : (':' : Char) ∉ u.scheme.data :=
    not_mem_of_all hs3 (by decide)
  have hHostSl : ('/' : Char) ∉ u.host.data ++ optData ':' u.port := by
    intro hm
    rcases List.mem_append.mp hm with hm | hm
    · exact absurd (List.all_eq_true.mp hh2 _ hm) (by decide)
    · exact hportSl hm
  have hHcolon : (':' : Char) ∉ u.host.data :=
    not_mem_of_all hh2 (by decide)
  have h1 : breakAtChar '#' (URL.toStr u).data =
      ((u.scheme.data ++ ':' :: '/' :: '/' ::
        (u.host.data ++ optData ':' u.port ++ u.path.data)) ++
        optData '?' u.query, u.fragment.map String.data) := by
    rw [toStr_data]
    exact breakAtChar_optData _ _ _ hHpre
  have h2 : breakAtChar '?'
      (u.scheme.data ++ ':' :: '/' :: '/' ::
        (u.host.data ++ optData ':' u.port ++ u.path.data) ++
        optData '?' u.query) =
      (u.scheme.data ++ ':' :: '/' :: '/' ::
        (u.host.data ++ optData ':' u.port ++ u.path.data),
       u.query.map String.data) :=
    breakAtChar_optData _ _ _ hQpre
  have h3 : breakAtChar ':'
      (u.scheme.data ++ ':' :: '/' :: '/' ::
        (u.host.data ++ optData ':' u.port ++ u.path.data)) =
      (u.scheme.data,
       some ('/' :: '/' :: (u.host.data ++ optData ':' u.port ++ u.path.data))) :=
    breakAtChar_append _ hScolon
  have h4 : breakAtChar '/' (u.host.data ++ optData ':' u.port ++ u.path.data) =
      (u.host.data ++ optData ':' u.port, some dr) := by
    rw [hdr]
    exact breakAtChar_append _ hHostSl
  have h5 : breakAtChar ':' (u.host.data ++ optData ':' u.port) =
      (u.host.data, u.port.map String.data) :=
    breakAtChar_optData _ _ _ hHcolon
  have hallS : u.scheme.data.all isSchemeChar = true := by
    rw [List.all_eq_true] at hs3 ⊢
    intro c hc
    have h2 := hs3 c hc
    simp only [schemeCharLower, Bool.and_eq_true] at h2
    exact h2.1
  have hmapS : u.scheme.data.map lowerChar = u.scheme.data := by
    refine map_lowerChar_fixed (fun c hc => ?_)
    have h2 := List.all_eq_true.mp hs3 c hc
    simp only [schemeCharLower, Bool.and_eq_true] at h2
    exact eq_of_beq h2.2
  have hmapH : u.host.data.map lowerChar = u.host.data := by
    refine map_lowerChar_fixed (fun c hc => ?_)
    have h2 := List.all_eq_true.mp hh2 c hc
    simp only [hostChar, Bool.and_eq_true] at h2
    exact eq_of_beq h2.2
  have e1 : (⟨u.scheme.data⟩ : String) = u.scheme := strMk_data _
  have e2 : (⟨u.host.data⟩ : String) = u.host := strMk_data _
  have e3 : Option.map (fun l => (⟨l⟩ : String)) (Option.map String.data u.port)
      = u.port := by
    cases u.port with
    | none => rfl
    | some p => simp [strMk_data]
  have e4 : (⟨'/' :: dr⟩ : String) = u.path := by
    rw [← hdr]
  have e5 : Option.map (fun l => (⟨l⟩ : String)) (Option.map String.data u.query)
      = u.query := by
    cases u.query with
    | none => rfl
    | some q => simp [strMk_data]
  have e6 : Option.map (fun l => (⟨l⟩ : String))
      (Option.map String.data u.fragment) = u.fragment := by
    cases u.fragment with
    | none => rfl
    | some f => simp [strMk_data]
  simp only [parseURL, h1, h2, h3]
  rw [if_pos (And.intro hs1 (And.intro hs2 hallS))]
  rw [if_pos (show
    ('/' :: '/' :: (u.host.data ++ optData ':' u.port ++ u.path.data)).headD ' '
        = '/' ∧
      ('/' :: '/' ::
        (u.host.data ++ optData ':' u.port ++ u.path.data)).tail.headD ' ' = '/' ∧
      2 ≤ ('/' :: '/' :: (u.host.data ++ optData ':' u.port ++ u.path.data)).length
    from ⟨rfl, rfl, by simp⟩)]
  have hdrop : ('/' :: '/' ::
      (u.host.data ++ optData ':' u.port ++ u.path.data)).drop 2 =
      u.host.data ++ optData ':' u.port ++ u.path.data := rfl
  simp only [hdrop, h4, h5]
  rw [if_neg hh1]
  simp only [hmapS, hmapH, Option.getD_some, e1, e2, e3, e4, e5, e6]

/-- Every URL the parser produces is well-formed. -/
theorem parseURL_wf {s : String} {u : URL} (h : parseURL s = some u) : u.wf := by
  cases hsp : (breakAtChar ':' (breakAtChar '?' (breakAtChar '#' s.data).1).1).2 with
  | none => simp [parseURL, hsp] at h
  | some rest =>
    simp only [parseURL, hsp] at h
    by_cases hcond :
        ((breakAtChar ':' (breakAtChar '?' (breakAtChar '#' s.data).1).1).1 ≠ [] ∧
        ((breakAtChar ':' (breakAtChar '?' (breakAtChar '#' s.data).1).1).1.headD
          ' ').isAlpha = true ∧
        (breakAtChar ':' (breakAtChar '?' (breakAtChar '#' s.data).1).1).1.all
          isSchemeChar = true)
    case neg => rw [if_neg hcond] at h; simp at h
    case pos =>
    rw [if_pos hcond] at h
    obtain ⟨hc1, hc2, hc3⟩ := hcond
    by_cases hsl : (rest.headD ' ' = '/' ∧ rest.tail.headD ' ' = '/' ∧
        2 ≤ rest.length)
    case neg => rw [if_neg hsl] at h; simp at h
    case pos =>
    rw [if_pos hsl] at h
    by_cases hne : (breakAtChar ':' (breakAtChar '/' (rest.drop 2)).1).1 = []
    case pos => rw [if_pos hne] at h; simp at h
    case neg =>
    rw [if_neg hne] at h
    injection h with h
    subst h
    have hrest : ∀ c : Char, c ∈ rest.drop 2 →
        c ∈ (breakAtChar '?' (breakAtChar '#' s.data).1).1 := by
      intro c hc
      exact mem_of_breakAtChar_snd hsp (List.drop_subset 2 rest hc)
    have hnoQ : ∀ c : Char, c ∈ rest.drop 2 → ¬ c = '?' := by
      intro c hc he
      exact not_mem_breakAtChar_fst '?' (breakAtChar '#' s.data).1
        (he ▸ hrest c hc)
    have hnoH : ∀ c : Char, c ∈ rest.drop 2 → ¬ c = '#' := by
      intro c hc he
      exact not_mem_breakAtChar_fst '#' s.data
        (mem_of_breakAtChar_fst (he ▸ hrest c hc))
    refine ⟨?_, ?_, ?_, ?_, ?_, ?_, ?_, ?_, ?_, ?_⟩
    · show (breakAtChar ':'
        (breakAtChar '?' (breakAtChar '#' s.data).1).1).1.map lowerChar ≠ []
      simpa using hc1
    · show (((breakAtChar ':'
        (breakAtChar '?' (breakAtChar '#' s.data).1).1).1.map
          lowerChar).headD ' ').isAlpha = true
      cases hsc : (breakAtChar ':' (breakAtChar '?' (breakAtChar '#' s.data).1).1).1 with
      | nil => exact absurd hsc hc1
      | cons c cs =>
        rw [hsc] at hc2
        simp only [List.headD_cons] at hc2
        simp only [hsc, List.map_cons, List.headD_cons]
        exact lowerChar_isAlpha hc2
    · show ((breakAtChar ':'
        (breakAtChar '?' (breakAtChar '#' s.data).1).1).1.map
          lowerChar).all schemeCharLower = true
      rw [List.all_eq_true]
      intro c hc
      obtain ⟨c0, hc0, rfl⟩ := List.mem_map.mp hc
      have hsc := List.all_eq_true.mp hc3 c0 hc0
      simp only [schemeCharLower, Bool.and_eq_true]
      exact ⟨lowerChar_isSchemeChar hsc, beq_iff_eq.mpr (lowerChar_idem c0)⟩
    · show (breakAtChar ':' (breakAtChar '/' (rest.drop 2)).1).1.map
        lowerChar ≠ []
      simpa using hne
    · show ((breakAtChar ':' (breakAtChar '/' (rest.drop 2)).1).1.map
        lowerChar).all hostChar = true
      rw [List.all_eq_true]
      intro c hc
      obtain ⟨c0, hc0, rfl⟩ := List.mem_map.mp hc
      have hmem3 : c0 ∈ (breakAtChar '/' (rest.drop 2)).1 :=
        mem_of_breakAtChar_fst hc0
      have hmemHP : c0 ∈ rest.drop 2 := mem_of_breakAtChar_fst hmem3
      have hcolon : ¬ c0 = ':' := fun he =>
        not_mem_breakAtChar_fst ':' (breakAtChar '/' (rest.drop 2)).1 (he ▸ hc0)
      have hslash : ¬ c0 = '/' := fun he =>
        not_mem_breakAtChar_fst '/' (rest.drop 2) (he ▸ hmem3)
      simp only [hostChar, Bool.and_eq_true, Bool.not_eq_true',
        Bool.or_eq_false_iff, beq_eq_false_iff_ne, ne_eq, beq_iff_eq]
      refine ⟨⟨⟨⟨?_, ?_⟩, ?_⟩, ?_⟩, lowerChar_idem c0⟩
      · exact fun he => hslash (eq_of_lowerChar_eq_low (by decide) he)
      · exact fun he => hcolon (eq_of_lowerChar_eq_low (by decide) he)
      · exact fun he => hnoQ c0 hmemHP (eq_of_lowerChar_eq_low (by decide) he)
      · exact fun he => hnoH c0 hmemHP (eq_of_lowerChar_eq_low (by decide) he)
    · cases hp4 : (breakAtChar ':' (breakAtChar '/' (rest.drop 2)).1).2 with
      | none => rfl
      | some p =>
        show p.all portChar = true
        rw [List.all_eq_true]
        intro c hc
        have hmem3 : c ∈ (breakAtChar '/' (rest.drop 2)).1 := by
          rw [breakAtChar_some hp4]
          exact List.mem_append_right _ (List.mem_cons_of_mem _ hc)
        have hmemHP : c ∈ rest.drop 2 := mem_of_breakAtChar_fst hmem3
        have hslash : ¬ c = '/' := fun he =>
          not_mem_breakAtChar_fst '/' (rest.drop 2) (he ▸ hmem3)
        simp only [portChar, Bool.not_eq_true', Bool.or_eq_false_iff,
          beq_eq_false_iff_ne, ne_eq]
        exact ⟨⟨hslash, hnoQ c hmemHP⟩, hnoH c hmemHP⟩
    · rfl
    · show ('/' :: (breakAtChar '/' (rest.drop 2)).2.getD []) ≠ []
      simp
    · show ('/' :: (breakAtChar '/' (rest.drop 2)).2.getD []).all pathChar = true
      rw [List.all_eq_true]
      intro c hc
      rcases List.mem_cons.mp hc with rfl | hc2
      · decide
      · cases hp3 : (breakAtChar '/' (rest.drop 2)).2 with
        | none => rw [hp3] at hc2; simp at hc2
        | some t =>
          rw [hp3] at hc2
          simp only [Option.getD_some] at hc2
          have hmemHP : c ∈ rest.drop 2 := by
            rw [breakAtChar_some hp3]
            exact List.mem_append_right _ (List.mem_cons_of_mem _ hc2)
          simp only [pathChar, Bool.not_eq_true', Bool.or_eq_false_iff,
            beq_eq_false_iff_ne, ne_eq]
          exact ⟨hnoQ c hmemHP, hnoH c hmemHP⟩
    · cases hp2 : (breakAtChar '?' (breakAtChar '#' s.data).1).2 with
      | none => rfl
      | some q =>
        show q.all queryChar = true
        rw [List.all_eq_true]
        intro c hc
        have hmem1 : c ∈ (breakAtChar '#' s.data).1 := by
          rw [breakAtChar_some hp2]
          exact List.mem_append_right _ (List.mem_cons_of_mem _ hc)
        simp only [queryChar, Bool.not_eq_true', beq_eq_false_iff_ne, ne_eq]
        exact fun he => not_mem_breakAtChar_fst '#' s.data (he ▸ hmem1)

/-! ## The alternative (host-swapped) URL -/

theorem wf_swap_host {u : URL} (h : u.wf) {hostStr : String}
    (hne : hostStr.data ≠ []) (hch : hostStr.data.all hostChar = true) :
    URL.wf { u with host := hostStr } := by
  obtain ⟨a1, a2, a3, _, _, a6, a7, a8, a9, a10⟩ := h
  exact ⟨a1, a2, a3, hne, hch, a6, a7, a8, a9, a10⟩

theorem alt_parse_cdn {url : String} {u : URL} (hp : parseURL url = some u)
    (hc : u.host = "cdn.discordapp.com") :
    getAlternativeDiscordUrl url =
      URL.toStr { u with host := "media.discordapp.net" } ∧
    parseURL (getAlternativeDiscordUrl url) =
      some { u with host := "media.discordapp.net" } := by
  have hstr : getAlternativeDiscordUrl url =
      URL.toStr { u with host := "media.discordapp.net" } := by
    simp [getAlternativeDiscordUrl, hp, hc]
  have hwf2 : URL.wf { u with host := "media.discordapp.net" } :=
    wf_swap_host (parseURL_wf hp) (by decide) (by decide)
  exact ⟨hstr, by rw [hstr]; exact parseURL_toStr hwf2⟩

theorem alt_parse_media {url : String} {u : URL} (hp : parseURL url = some u)
    (hc : u.host = "media.discordapp.net") :
    getAlternativeDiscordUrl url =
      URL.toStr { u with host := "cdn.discordapp.com" } ∧
    parseURL (getAlternativeDiscordUrl url) =
      some { u with host := "cdn.discordapp.com" } := by
  have hstr : getAlternativeDiscordUrl url =
      URL.toStr { u with host := "cdn.discordapp.com" } := by
    simp [getAlternativeDiscordUrl, hp, hc]
  have hwf2 : URL.wf { u with host := "cdn.discordapp.com" } :=
    wf_swap_host (parseURL_wf hp) (by decide) (by decide)
  exact ⟨hstr, by rw [hstr]; exact parseURL_toStr hwf2⟩

/-- For the two mirror-equivalent hosts the host-swapped URL is a different
string, so the worker's `!==` guard lets the retry happen. -/
theorem alt_ne {url : String} {u : URL} (hp : parseURL url = some u)
    (hh : u.host = "cdn.discordapp.com" ∨ u.host = "media.discordapp.net") :
    getAlternativeDiscordUrl url ≠ url := by
  intro he
  rcases hh with hc | hc
  · have h2 := (alt_parse_cdn hp hc).2
    rw [he, hp] at h2
    have h3 := congrArg (fun o => (Option.map URL.host o).getD "") h2
    simp [hc] at h3
  · have h2 := (alt_parse_media hp hc).2
    rw [he, hp] at h2
    have h3 := congrArg (fun o => (Option.map URL.host o).getD "") h2
    simp [hc] at h3

/-! ## Decimal rendering: digits, value, length -/

theorem decDigitChar_toNat {n : Nat} (h : n < 10) :
    (decDigitChar n).toNat = 48 + n :=
  char_toNat_ofNat _ (by omega)

theorem natDecimalAux_eq (f1 : Nat) : ∀ f2 n : Nat, n < f1 → n < f2 →
    natDecimalAux f1 n = natDecimalAux f2 n := by
  induction f1 with
  | zero => intro f2 n h1 _; omega
  | succ f ih =>
    intro f2 n h1 h2
    cases f2 with
    | zero => omega
    | succ g =>
      by_cases h : n < 10
      · simp [natDecimalAux, h]
      · simp only [natDecimalAux, if_neg h]
        have hd : n / 10 < n := Nat.div_lt_self (by omega) (by omega)
        rw [ih g (n / 10) (by omega) (by omega)]

theorem natDecimal_unfold (n : Nat) : natDecimal n =
    if n < 10 then [decDigitChar n]
    else natDecimal (n / 10) ++ [decDigitChar (n % 10)] := by
  show natDecimalAux (n + 1) n = _
  by_cases h : n < 10
  · simp [natDecimalAux, h]
  · simp only [natDecimalAux, if_neg h]
    have hd : n / 10 < n := Nat.div_lt_self (by omega) (by omega)
    rw [natDecimalAux_eq n (n / 10 + 1) (n / 10) (by omega) (by omega)]
    rfl

theorem strVal_append_digit (l : List Char) (c : Char) :
    strVal (l ++ [c]) = strVal l * 10 + (c.toNat - 48) := by
  simp [strVal, List.foldl_append]

theorem strVal_natDecimal (n : Nat) : strVal (natDecimal n) = n := by
  induction n using Nat.strong_induction_on with
  | _ n ih =>
    by_cases h : n < 10
    · rw [natDecimal_unfold, if_pos h]
      simp [strVal, decDigitChar_toNat h]
    · rw [natDecimal_unfold, if_neg h]
      rw [strVal_append_digit, ih (n / 10) (Nat.div_lt_self (by omega) (by omega))]
      rw [decDigitChar_toNat (Nat.mod_lt _ (by omega))]
      omega

theorem natDecimal_digits (n : Nat) :
    ∀ c ∈ natDecimal n, 48 ≤ c.toNat ∧ c.toNat ≤ 57 := by
  induction n using Nat.strong_induction_on with
  | _ n ih =>
    intro c hc
    by_cases h : n < 10
    · rw [natDecimal_unfold, if_pos h] at hc
      simp at hc
      subst hc
      rw [decDigitChar_toNat h]
      omega
    · rw [natDecimal_unfold, if_neg h] at hc
      rcases List.mem_append.mp hc with hc | hc
      · exact ih (n / 10) (Nat.div_lt_self (by omega) (by omega)) c hc
      · simp at hc
        subst hc
        rw [decDigitChar_toNat (Nat.mod_lt _ (by omega))]
        have := Nat.mod_lt n (show 0 < 10 by omega)
        omega

theorem strVal_lt {l : List Char} (h : ∀ c ∈ l, c.toNat - 48 < 10) :
    strVal l < 10 ^ l.length := by
  induction l using List.reverseRecOn with
  | nil => simp [strVal]
  | append_singleton l c ih =>
    rw [strVal_append_digit]
    have h1 := ih (fun x hx => h x (List.mem_append_left _ hx))
    have h2 := h c (List.mem_append_right _ (List.mem_singleton.mpr rfl))
    simp only [List.length_append, List.length_singleton]
    have : 10 ^ (l.length + 1) = 10 ^ l.length * 10 := by ring
    omega

theorem natDecimal_length_le (n k : Nat) (hk : 1 ≤ k) (h : n < 10 ^ k) :
    (natDecimal n).length ≤ k := by
  induction k generalizing n with
  | zero => omega
  | succ k ih =>
    by_cases h10 : n < 10
    · rw [natDecimal_unfold, if_pos h10]
      simp
    · rw [natDecimal_unfold, if_neg h10]
      have hk1 : 1 ≤ k := by
        by_contra hk0
        have : k = 0 := by omega
        subst this
        simp at h
        omega
      have hdiv : n / 10 < 10 ^ k := by
        rw [pow_succ'] at h
        exact Nat.div_lt_of_lt_mul h
      have := ih (n / 10) hk1 hdiv
      simp [List.length_append]
      omega

theorem natDecimal_length_ge (n k : Nat) (h : 10 ^ k ≤ n) :
    k + 1 ≤ (natDecimal n).length := by
  by_contra hlt
  push_neg at hlt
  have hv := strVal_natDecimal n
  have hb := strVal_lt (fun c hc => by
    have := natDecimal_digits n c hc
    omega)
  rw [hv] at hb
  have hle : 10 ^ (natDecimal n).length ≤ 10 ^ k :=
    Nat.pow_le_pow_right (by omega) (by omega)
  omega

theorem natDecimal_length_four {n : Nat} (h1 : 1000 ≤ n) (h2 : n < 10000) :
    (natDecimal n).length = 4 := by
  have ha := natDecimal_length_le n 4 (by omega) (by simpa using h2)
  have hb := natDecimal_length_ge n 3 (by simpa using h1)
  omega

/-- `m.toString().padStart(2, '0')` for `m < 100`: exactly two digit
characters denoting `m`. -/
theorem natDecimal_ne_nil (n : Nat) : natDecimal n ≠ [] := by
  rw [natDecimal_unfold]
  by_cases h : n < 10
  · rw [if_pos h]; simp
  · rw [if_neg h]; simp

theorem padStart2_natDecimal (m : Nat) (hm : m < 100) :
    (padStart2 (natToString m)).data.length = 2 ∧
    strVal (padStart2 (natToString m)).data = m ∧
    (∀ c ∈ (padStart2 (natToString m)).data, 48 ≤ c.toNat ∧ c.toNat ≤ 57) := by
  have hlen2 : (natDecimal m).length ≤ 2 :=
    natDecimal_length_le m 2 (by omega) (by norm_num; omega)
  have hlen1 : 1 ≤ (natDecimal m).length :=
    List.length_pos.mpr (natDecimal_ne_nil m)
  have hstrlen : (natToString m).length = (natDecimal m).length := rfl
  by_cases h1 : (natDecimal m).length = 1
  · have hpad : padStart2 (natToString m) = ⟨'0' :: natDecimal m⟩ := by
      unfold padStart2
      rw [if_pos (by rw [hstrlen]; omega)]
      rw [hstrlen, h1]
      apply String.ext
      simp [natToString, String.data_append]
    rw [hpad]
    refine ⟨by simp [h1], ?_, ?_⟩
    · show strVal ('0' :: natDecimal m) = m
      have : strVal ('0' :: natDecimal m) = strVal (natDecimal m) := rfl
      rw [this, strVal_natDecimal]
    · intro c hc
      rcases List.mem_cons.mp hc with rfl | hc
      · decide
      · exact natDecimal_digits m c hc
  · have h2 : (natDecimal m).length = 2 := by omega
    have hpad : padStart2 (natToString m) = natToString m := by
      unfold padStart2
      rw [if_neg (by rw [hstrlen]; omega)]
    rw [hpad]
    exact ⟨by rw [show (natToString m).data = natDecimal m from rfl, h2],
      by rw [show (natToString m).data = natDecimal m from rfl, strVal_natDecimal],
      fun c hc => natDecimal_digits m c hc⟩

/-- The date folder string determines the calendar date: the worker's
`YYYYMMDD` rendering is injective on calendar dates with four-digit years. -/
theorem folderName_inj {d1 d2 : SimDate}
    (hy1 : 1000 ≤ d1.year) (hy1b : d1.year < 10000)
    (hy2 : 1000 ≤ d2.year) (hy2b : d2.year < 10000)
    (hm1 : d1.month < 99) (hm2 : d2.month < 99)
    (hd1 : d1.day < 100) (hd2 : d2.day < 100)
    (h : folderName d1 = folderName d2) : d1 = d2 := by
  have hdata := congrArg String.data h
  simp only [folderName, String.data_append] at hdata
  have hy1len : (natDecimal d1.year).length = 4 := natDecimal_length_four hy1 hy1b
  have hy2len : (natDecimal d2.year).length = 4 := natDecimal_length_four hy2 hy2b
  obtain ⟨hm1len, hm1val, _⟩ := padStart2_natDecimal (d1.month + 1) (by omega)
  obtain ⟨hm2len, hm2val, _⟩ := padStart2_natDecimal (d2.month + 1) (by omega)
  obtain ⟨hdd1len, hdd1val, _⟩ := padStart2_natDecimal d1.day hd1
  obtain ⟨hdd2len, hdd2val, _⟩ := padStart2_natDecimal d2.day hd2
  have hyd : (natToString d1.year).data = natDecimal d1.year := rfl
  have hyd2 : (natToString d2.year).data = natDecimal d2.year := rfl
  rw [hyd, hyd2, List.append_assoc, List.append_assoc] at hdata
  obtain ⟨hy, hrest⟩ := List.append_inj hdata (by rw [hy1len, hy2len])
  obtain ⟨hm, hd⟩ := List.append_inj hrest (by rw [hm1len, hm2len])
  have hyv : d1.year = d2.year := by
    have := congrArg strVal hy
    rwa [strVal_natDecimal, strVal_natDecimal] at this
  have hmv : d1.month = d2.month := by
    have := congrArg strVal hm
    rw [hm1val, hm2val] at this
    omega
  have hdv : d1.day = d2.day := by
    have := congrArg strVal hd
    rwa [hdd1val, hdd2val] at this
  cases d1
  cases d2
  simp_all

/-! ## Handler lemmas and claim theorems -/

theorem isDiscordUrl_parse {url : String} (h : isDiscordUrl url = true) :
    ∃ u, parseURL url = some u := by
  unfold isDiscordUrl at h
  cases hp : parseURL url with
  | none => rw [hp] at h; simp at h
  | some u => exact ⟨u, rfl⟩

theorem isDiscordUrl_not_falsy {url : String} (h : isDiscordUrl url = true) :
    jsFalsy (some url) = false := by
  show (url == "") = false
  cases hurl : url == ""
  · rfl
  · exfalso
    have he : url = "" := eq_of_beq hurl
    subst he
    obtain ⟨u, hu⟩ := isDiscordUrl_parse h
    have hnone : parseURL "" = none := by decide
    rw [hnone] at hu
    exact Option.noConfusion hu

/-- **C9.** The URL validator is total and pure: it returns a boolean for
every input string — the `try/catch` of the source is embedded as the
`Option`-valued parser, so no exception escapes — and every string that the
URL parser rejects is treated as unacceptable; likewise the alternative-URL
transform returns its input unchanged when parsing fails instead of
propagating an error. -/
theorem validator_total_malformed_unacceptable (s : String) :
    (isDiscordUrl s = true ∨ isDiscordUrl s = false) ∧
    (parseURL s = none →
      isDiscordUrl s = false ∧ getAlternativeDiscordUrl s = s) := by
  refine ⟨?_, fun h => ⟨?_, ?_⟩⟩
  · cases isDiscordUrl s
    · exact Or.inr rfl
    · exact Or.inl rfl
  · simp [isDiscordUrl, h]
  · simp [getAlternativeDiscordUrl, h]

theorem validator_total_malformed_unacceptable_witness :
    isDiscordUrl "http//missing-colon" = false ∧
    getAlternativeDiscordUrl "http//missing-colon" = "http//missing-colon" :=
  (validator_total_malformed_unacceptable "http//missing-colon").2 (by decide)

/-- **C8.** A URL whose host is not exactly one of the three allow-listed
hostnames, or whose path contains neither `/attachments/` nor `/external/`,
is rejected by the validator, and a `POST /cache` carrying it answers 400
with no outbound fetch and no storage write. -/
theorem invalid_url_rejected_no_fetch (fetchO : FetchOracle) (d : SimDate)
    (b : Bucket) (url : String) (u : URL) (hp : parseURL url = some u)
    (hbad : validDomains.any (fun dm => u.host == dm) = false ∨
      (strIncludes u.path "/attachments/" ||
        strIncludes u.path "/external/") = false) :
    isDiscordUrl url = false ∧
    workerFetch fetchO d b "POST" "/cache" (.json (some url)) =
      ({ status := 400, payload := .errInvalidDiscordUrl url }, [], b) := by
  have hv : isDiscordUrl url = false := by
    rcases hbad with hb | hb
    · simp [isDiscordUrl, hp, hb]
    · simp [isDiscordUrl, hp, hb]
  have hfal : jsFalsy (some url) = false := by
    show (url == "") = false
    cases hurl : url == ""
    · rfl
    · exfalso
      have he : url = "" := eq_of_beq hurl
      subst he
      have hnone : parseURL "" = none := by decide
      rw [hnone] at hp
      exact Option.noConfusion hp
  refine ⟨hv, ?_⟩
  rw [workerFetch, if_pos (by decide)]
  rw [handlePostCache]
  simp only [hfal, Bool.false_eq_true, if_false, Option.getD_some, hv]
  simp

theorem invalid_url_rejected_no_fetch_witness :
    isDiscordUrl "https://evil.example.com/attachments/1/2/a.png" = false ∧
    workerFetch oracleOkC dateC [] "POST" "/cache"
        (.json (some "https://evil.example.com/attachments/1/2/a.png")) =
      ({ status := 400,
         payload := .errInvalidDiscordUrl
           "https://evil.example.com/attachments/1/2/a.png" }, [], []) :=
  invalid_url_rejected_no_fetch oracleOkC dateC []
    "https://evil.example.com/attachments/1/2/a.png"
    { scheme := "https", host := "evil.example.com", port := none,
      path := "/attachments/1/2/a.png", query := none, fragment := none }
    (by decide) (Or.inl (by decide))

/-- Reduction of the `POST /cache` handler once validation has passed. -/
theorem handlePost_valid (fetchO : FetchOracle) (d : SimDate) (b : Bucket)
    {url : String} (hvalid : isDiscordUrl url = true) :
    handlePostCache fetchO d b (.json (some url)) =
      (match fetchO url with
       | .err e =>
         ({ status := 500,
            payload := .errFetchException ("Fetch error: " ++ e) url },
          [⟨url, fetchOptionsHeaders⟩], b)
       | .resp r1 =>
         if !r1.ok && r1.status == 403 then
           if getAlternativeDiscordUrl url != url then
             match fetchO (getAlternativeDiscordUrl url) with
             | .err e =>
               ({ status := 500,
                  payload := .errFetchException ("Fetch error: " ++ e) url },
                [⟨url, fetchOptionsHeaders⟩,
                 ⟨getAlternativeDiscordUrl url, fetchOptionsHeaders⟩], b)
             | .resp r2 =>
               ((processResponse d b url (getAlternativeDiscordUrl url) r2
                   [url, getAlternativeDiscordUrl url]).1,
                [⟨url, fetchOptionsHeaders⟩,
                 ⟨getAlternativeDiscordUrl url, fetchOptionsHeaders⟩],
                (processResponse d b url (getAlternativeDiscordUrl url) r2
                   [url, getAlternativeDiscordUrl url]).2)
           else
             ((processResponse d b url url r1 [url]).1,
              [⟨url, fetchOptionsHeaders⟩],
              (processResponse d b url url r1 [url]).2)
         else
           ((processResponse d b url url r1 [url]).1,
            [⟨url, fetchOptionsHeaders⟩],
            (processResponse d b url url r1 [url]).2)) := by
  rw [handlePostCache]
  rw [if_neg (by rw [isDiscordUrl_not_falsy hvalid]; exact Bool.false_ne_true)]
  simp only [Option.getD_some, hvalid]
  rw [if_neg (by simp)]

/-- **C6.** If a fetch attempt returns an HTTP success status but the
declared content type does not begin with `image/`, or the final URL's last
path segment does not end in one of `jpg, jpeg, png, gif, webp`, the write
request is rejected with status 400, no further fetch is attempted, and
nothing is written to storage. -/
theorem validation_failure_rejects_without_write (fetchO : FetchOracle)
    (d : SimDate) (b : Bucket) (url : String) (r : HttpResponse)
    (hvalid : isDiscordUrl url = true)
    (hf : fetchO url = .resp r) (hok : r.ok = true)
    (hbad : ctStartsImage (headersGet r.headers "content-type") = false ∨
      (extOfUrl url == "" || !(imageExts.contains (extOfUrl url))) = true) :
    (handlePostCache fetchO d b (.json (some url))).1.status = 400 ∧
    (handlePostCache fetchO d b (.json (some url))).2.2 = b ∧
    (handlePostCache fetchO d b (.json (some url))).2.1 =
      [⟨url, fetchOptionsHeaders⟩] := by
  obtain ⟨u, hp⟩ := isDiscordUrl_parse hvalid
  have hext : extOfUrl url = fileExtOf u := by rw [extOfUrl, hp]
  rw [handlePost_valid fetchO d b hvalid]
  simp only [hf]
  rw [if_neg (by rw [hok]; simp)]
  rw [processResponse]
  rw [if_neg (by rw [hok]; simp)]
  by_cases hct : ctStartsImage (headersGet r.headers "content-type") = false
  · rw [if_pos hct]
    exact ⟨rfl, rfl, rfl⟩
  · rw [if_neg hct]
    have hextbad : (fileExtOf u == "" || !(imageExts.contains (fileExtOf u)))
        = true := by
      rcases hbad with hb | hb
      · exact absurd hb hct
      · rwa [hext] at hb
    simp only [hp]
    rw [if_pos hextbad]
    simp

theorem validation_failure_rejects_without_write_witness :
    (handlePostCache oracleHtmlC dateC [] (.json (some urlC))).1.status = 400 ∧
    (handlePostCache oracleHtmlC dateC [] (.json (some urlC))).2.2 = [] ∧
    (handlePostCache oracleHtmlC dateC [] (.json (some urlC))).2.1 =
      [⟨urlC, fetchOptionsHeaders⟩] :=
  validation_failure_rejects_without_write oracleHtmlC dateC [] urlC
    { status := 200, statusText := "OK",
      headers := [("content-type", "text/html")], body := [60, 104] }
    (by decide) rfl (by decide) (Or.inl (by decide))

/-- **C2 (amended).** The first fetch attempt of the write path requests the
source URL exactly as provided — the worker performs no query-parameter
stripping before the first attempt — and sends the fixed set of
browser-like request headers (user agent, accept, accept-language,
referrer, origin). -/
theorem first_attempt_uses_url_verbatim_with_fixed_headers
    (fetchO : FetchOracle) (d : SimDate) (b : Bucket) (url : String)
    (hvalid : isDiscordUrl url = true) :
    (handlePostCache fetchO d b (.json (some url))).2.1.headD ⟨"", []⟩ =
      ⟨url, fetchOptionsHeaders⟩ := by
  rw [handlePost_valid fetchO d b hvalid]
  split
  · rfl
  · split
    · split
      · split
        · rfl
        · rfl
      · rfl
    · rfl

theorem first_attempt_uses_url_verbatim_with_fixed_headers_witness :
    (handlePostCache oracleOkC dateC [] (.json (some urlC))).2.1.headD ⟨"", []⟩ =
      ⟨urlC, fetchOptionsHeaders⟩ :=
  first_attempt_uses_url_verbatim_with_fixed_headers oracleOkC dateC [] urlC
    (by decide)

set_option maxRecDepth 1000000 in
/-- **C2 (counterexample).** On a URL carrying the signing parameter
`sig=abc` — not in any format/quality allow-list — the only fetch the
worker makes requests the URL with its query intact: the requested URL
still contains `?sig=`, equals the input verbatim, and differs from the
spec's non-essential-parameter-stripped variant, which is never fetched. -/
theorem first_attempt_not_stripped_counterexample :
    (handlePostCache oracleOkC dateC [] (.json (some urlC))).2.1.map
        FetchCall.url = [urlC] ∧
    strIncludes urlC "?sig=" = true ∧
    stripNonEssentialParams urlC ≠ urlC ∧
    stripNonEssentialParams urlC ∉
      (handlePostCache oracleOkC dateC [] (.json (some urlC))).2.1.map
        FetchCall.url := by decide

/-- **C3 (amended).** If the first attempt returns 403 and the host-swapped
retry also fails, no further fetch attempt is made — in particular no third
attempt with the query parameters stripped: the request fails with the
retry's status, the failure report retains the identity and order of the
two URL variants tried, and nothing is written to storage. -/
theorem no_third_attempt_after_two_forbidden (fetchO : FetchOracle)
    (d : SimDate) (b : Bucket) (url : String) (u : URL)
    (r1 r2 : HttpResponse)
    (hvalid : isDiscordUrl url = true) (hp : parseURL url = some u)
    (hmir : u.host = "cdn.discordapp.com" ∨ u.host = "media.discordapp.net")
    (h1 : fetchO url = .resp r1) (h403 : r1.status = 403)
    (h2 : fetchO (getAlternativeDiscordUrl url) = .resp r2)
    (hbad : r2.ok = false) :
    handlePostCache fetchO d b (.json (some url)) =
      ({ status := r2.status,
         payload := .errFetchFailed
           ("Failed to fetch Discord image: " ++ natToString r2.status ++
            " " ++ r2.statusText)
           url [url, getAlternativeDiscordUrl url] r2.headers },
       [⟨url, fetchOptionsHeaders⟩,
        ⟨getAlternativeDiscordUrl url, fetchOptionsHeaders⟩], b) := by
  have hok1 : r1.ok = false := by
    rw [HttpResponse.ok, h403]
    decide
  rw [handlePost_valid fetchO d b hvalid]
  simp only [h1]
  rw [if_pos (by rw [hok1, h403]; decide)]
  rw [if_pos (by
    rw [bne_iff_ne]
    exact alt_ne hp hmir)]
  simp only [h2]
  rw [processResponse, if_pos (by rw [hbad])]

theorem no_third_attempt_after_two_forbidden_witness :
    handlePostCache oracle403C dateC [] (.json (some urlC)) =
      ({ status := 403,
         payload := .errFetchFailed
           "Failed to fetch Discord image: 403 Forbidden"
           urlC [urlC, getAlternativeDiscordUrl urlC] [("retry-after", "5")] },
       [⟨urlC, fetchOptionsHeaders⟩,
        ⟨getAlternativeDiscordUrl urlC, fetchOptionsHeaders⟩], []) :=
  no_third_attempt_after_two_forbidden oracle403C dateC [] urlC uC
    resp403C resp403C (by decide) (by decide) (Or.inl rfl) rfl rfl rfl
    (by decide)

/-- **C3 (counterexample).** With a source that answers 403 for both the
original URL and its host-swapped variant, the worker makes exactly two
fetch attempts and fails with 403; the all-query-parameters-stripped
variant the claim's third attempt would request is never fetched. -/
theorem no_third_attempt_counterexample :
    (handlePostCache oracle403C dateC [] (.json (some urlC))).2.1.map
        FetchCall.url = [urlC, getAlternativeDiscordUrl urlC] ∧
    (handlePostCache oracle403C dateC [] (.json (some urlC))).1.status = 403 ∧
    stripAllParams urlC ∉
      (handlePostCache oracle403C dateC [] (.json (some urlC))).2.1.map
        FetchCall.url := by decide

theorem ok_eq_false_of_403 {r : HttpResponse} (h : r.status = 403) :
    r.ok = false := by
  rw [HttpResponse.ok, h]
  decide

/-- The fetch log of the write path, given the first response: the
host-swapped variant is requested exactly when the first status is 403. -/
theorem handlePost_log (fetchO : FetchOracle) (d : SimDate) (b : Bucket)
    (url : String) (u : URL) (r1 : HttpResponse)
    (hvalid : isDiscordUrl url = true) (hp : parseURL url = some u)
    (hmir : u.host = "cdn.discordapp.com" ∨ u.host = "media.discordapp.net")
    (h1 : fetchO url = .resp r1) :
    (handlePostCache fetchO d b (.json (some url))).2.1 =
      if r1.status = 403 then
        [⟨url, fetchOptionsHeaders⟩,
         ⟨getAlternativeDiscordUrl url, fetchOptionsHeaders⟩]
      else [⟨url, fetchOptionsHeaders⟩] := by
  have hne := alt_ne hp hmir
  rw [handlePost_valid fetchO d b hvalid]
  simp only [h1]
  by_cases h403 : r1.status = 403
  · rw [if_pos h403]
    rw [if_pos (by rw [ok_eq_false_of_403 h403, h403]; decide)]
    rw [if_pos (bne_iff_ne.mpr hne)]
    split
    · rfl
    · rfl
  · rw [if_neg h403]
    rw [if_neg (by
      have : (r1.status == 403) = false := beq_eq_false_iff_ne.mpr h403
      rw [this]
      simp)]

/-- A 403 on the first host followed by a valid image response on the
swapped host produces a success. -/
theorem handlePost_swap_success (fetchO : FetchOracle) (d : SimDate)
    (b : Bucket) (url : String) (u : URL) (r1 r2 : HttpResponse)
    (hvalid : isDiscordUrl url = true) (hp : parseURL url = some u)
    (hmir : u.host = "cdn.discordapp.com" ∨ u.host = "media.discordapp.net")
    (h1 : fetchO url = .resp r1) (h403 : r1.status = 403)
    (h2 : fetchO (getAlternativeDiscordUrl url) = .resp r2)
    (hok2 : r2.ok = true)
    (hct : ctStartsImage (headersGet r2.headers "content-type") = true)
    (hext : fileExtOf u ∈ imageExts) :
    (handlePostCache fetchO d b (.json (some url))).1.status = 200 := by
  have hne := alt_ne hp hmir
  have hpalt : ∃ u2, parseURL (getAlternativeDiscordUrl url) = some u2 ∧
      u2.path = u.path := by
    rcases hmir with hc | hc
    · exact ⟨_, (alt_parse_cdn hp hc).2, rfl⟩
    · exact ⟨_, (alt_parse_media hp hc).2, rfl⟩
  obtain ⟨u2, hpu2, hpath2⟩ := hpalt
  have hextu2 : fileExtOf u2 = fileExtOf u := by
    rw [fileExtOf, fileExtOf, hpath2]
  have hc1 : (fileExtOf u2 == "") = false := by
    rw [hextu2]
    cases hq : fileExtOf u == ""
    · rfl
    · exfalso
      have he : fileExtOf u = "" := eq_of_beq hq
      rw [he] at hext
      exact absurd hext (by decide)
  have hc2 : imageExts.contains (fileExtOf u2) = true := by
    rw [hextu2]
    exact List.elem_eq_true_of_mem hext
  rw [handlePost_valid fetchO d b hvalid]
  simp only [h1]
  rw [if_pos (by rw [ok_eq_false_of_403 h403, h403]; decide)]
  rw [if_pos (bne_iff_ne.mpr hne)]
  simp only [h2]
  rw [processResponse]
  rw [if_neg (by rw [hok2]; simp)]
  rw [if_neg (by rw [hct]; simp)]
  simp only [hpu2]
  rw [if_neg (by rw [hc1, hc2]; simp)]
  simp only [createShortHash, hp]

/-- **C1.** In the write path's fetch-with-fallback sequence on the two
mirror-equivalent hostnames, the host-swapped retry is attempted if and
only if the first response has status 403 — after any other status the
first attempt is the only one — and when the first host answers 403 and
the swapped host returns a valid image, the request succeeds with exactly
two fetch attempts. -/
theorem host_swap_retry_iff_403 (fetchO : FetchOracle) (d : SimDate)
    (b : Bucket) (url : String) (u : URL) (r1 : HttpResponse)
    (hvalid : isDiscordUrl url = true) (hp : parseURL url = some u)
    (hmir : u.host = "cdn.discordapp.com" ∨ u.host = "media.discordapp.net")
    (h1 : fetchO url = .resp r1) :
    ((handlePostCache fetchO d b (.json (some url))).2.1.map FetchCall.url =
        [url, getAlternativeDiscordUrl url] ↔ r1.status = 403) ∧
    (r1.status ≠ 403 →
      (handlePostCache fetchO d b (.json (some url))).2.1.map FetchCall.url =
        [url]) ∧
    (∀ r2 : HttpResponse, r1.status = 403 →
      fetchO (getAlternativeDiscordUrl url) = .resp r2 → r2.ok = true →
      ctStartsImage (headersGet r2.headers "content-type") = true →
      fileExtOf u ∈ imageExts →
      (handlePostCache fetchO d b (.json (some url))).2.1.map FetchCall.url =
        [url, getAlternativeDiscordUrl url] ∧
      (handlePostCache fetchO d b (.json (some url))).1.status = 200) := by
  have hlog := handlePost_log fetchO d b url u r1 hvalid hp hmir h1
  refine ⟨?_, ?_, ?_⟩
  · constructor
    · intro hmap
      by_contra h403
      rw [hlog, if_neg h403] at hmap
      simp at hmap
    · intro h403
      rw [hlog, if_pos h403]
      rfl
  · intro h403
    rw [hlog, if_neg h403]
    rfl
  · intro r2 h403 h2 hok2 hct hext
    refine ⟨by rw [hlog, if_pos h403]; rfl, ?_⟩
    exact handlePost_swap_success fetchO d b url u r1 r2 hvalid hp hmir h1
      h403 h2 hok2 hct hext

theorem host_swap_retry_iff_403_witness :
    ((handlePostCache oracleSwapC dateC [] (.json (some urlC))).2.1.map
        FetchCall.url = [urlC, getAlternativeDiscordUrl urlC] ↔
      resp403C.status = 403) ∧
    (handlePostCache oracleSwapC dateC [] (.json (some urlC))).1.status =
      200 := by
  have h := host_swap_retry_iff_403 oracleSwapC dateC [] urlC uC resp403C
    (by decide) (by decide) (Or.inl rfl) rfl
  refine ⟨h.1, ?_⟩
  exact (h.2.2 respPngC rfl rfl (by decide) (by decide)
    (by decide)).2


/-- Let-free restatement of `processResponse`. -/
theorem processResponse_eq (d : SimDate) (b : Bucket)
    (discordUrl finalUrl : String) (resp : HttpResponse)
    (attempted : List String) :
    processResponse d b discordUrl finalUrl resp attempted =
      if resp.ok = false then
        ({ status := resp.status,
           payload := .errFetchFailed
             ("Failed to fetch Discord image: " ++ natToString resp.status ++
              " " ++ resp.statusText) discordUrl attempted resp.headers }, b)
      else if ctStartsImage (headersGet resp.headers "content-type") = false then
        ({ status := 400,
           payload := .errInvalidContentType
             (headersGet resp.headers "content-type") }, b)
      else
        match parseURL finalUrl with
        | none => ({ status := 500,
                     payload := .errFetchException "Invalid URL" discordUrl }, b)
        | some u =>
          if fileExtOf u == "" || !(imageExts.contains (fileExtOf u)) then
            ({ status := 400, payload := .errInvalidExtension (fileExtOf u) }, b)
          else
            match createShortHash discordUrl with
            | none =>
              ({ status := 500,
                 payload := .errFetchException "Invalid URL" discordUrl }, b)
            | some shortHash =>
              ({ status := 200,
                 payload := .success
                   { cached_url := "https://imgcdn.ww0.ca/" ++
                       (folderName d ++ "/" ++ shortHash ++ "." ++ fileExtOf u),
                     original_url := discordUrl, final_url := finalUrl,
                     hash := shortHash,
                     path := folderName d ++ "/" ++ shortHash ++ "." ++
                       fileExtOf u } },
               bucketPut b
                 (folderName d ++ "/" ++ shortHash ++ "." ++ fileExtOf u)
                 resp.body
                 { contentType := headersGet resp.headers "content-type",
                   httpMetadata :=
                     { contentType := none,
                       cacheControl := some "public, max-age=31536000" } }) :=
  rfl

/-- Inversion: a success payload pins down every field of the record. -/
theorem processResponse_success_payload (d : SimDate) (b : Bucket)
    (discordUrl finalUrl : String) (resp : HttpResponse)
    (attempted : List String) (s : CacheSuccess)
    (h : (processResponse d b discordUrl finalUrl resp attempted).1.payload =
      .success s) :
    ∃ u0 uf : URL, parseURL discordUrl = some u0 ∧
      parseURL finalUrl = some uf ∧
      s.hash = (sha256hex (URL.toStr { u0 with query := none })).take 8 ∧
      s.path = folderName d ++ "/" ++ s.hash ++ "." ++ fileExtOf uf ∧
      s.original_url = discordUrl ∧ s.final_url = finalUrl := by
  rw [processResponse_eq] at h
  by_cases hok : resp.ok = false
  · rw [if_pos hok] at h
    exact absurd h (by simp)
  · rw [if_neg hok] at h
    by_cases hct : ctStartsImage (headersGet resp.headers "content-type") = false
    · rw [if_pos hct] at h
      exact absurd h (by simp)
    · rw [if_neg hct] at h
      rcases hpf : parseURL finalUrl with _ | uf
      · rw [hpf] at h
        exact absurd h (by simp)
      · rw [hpf] at h
        simp only [] at h
        by_cases hext : (fileExtOf uf == "" ||
            !(imageExts.contains (fileExtOf uf))) = true
        · rw [if_pos hext] at h
          exact absurd h (by simp)
        · rw [if_neg hext] at h
          rcases hsh : createShortHash discordUrl with _ | sh
          · rw [hsh] at h
            exact absurd h (by simp)
          · rw [hsh] at h
            have hrec := Payload.success.inj h
            rw [createShortHash] at hsh
            rcases hp : parseURL discordUrl with _ | u0
            · rw [hp] at hsh
              exact absurd hsh (by simp)
            · rw [hp] at hsh
              have hshv : (sha256hex (URL.toStr { u0 with query := none })).take 8
                  = sh := Option.some.inj hsh
              refine ⟨u0, uf, rfl, rfl, ?_, ?_, ?_, ?_⟩
              · rw [← hrec]
                exact hshv.symm
              · rw [← hrec]
              · rw [← hrec]
              · rw [← hrec]

/-- For in-range dates the folder name is exactly eight characters:
four year digits, two month digits, two day digits. -/
theorem folderName_length (d : SimDate) (hy1 : 1000 ≤ d.year)
    (hy2 : d.year < 10000) (hm : d.month + 1 < 100) (hd : d.day < 100) :
    (folderName d).data.length = 8 := by
  have hy : (natToString d.year).data.length = 4 :=
    natDecimal_length_four hy1 hy2
  obtain ⟨hml, _, _⟩ := padStart2_natDecimal (d.month + 1) hm
  obtain ⟨hdl, _, _⟩ := padStart2_natDecimal d.day hd
  simp [folderName, String.data_append, List.length_append, hy, hml, hdl]

theorem success_assemble (d : SimDate) (url fin : String) (s : CacheSuccess)
    (u0 uf : URL) (hp : parseURL url = some u0) (hpf : parseURL fin = some uf)
    (hhash : s.hash = (sha256hex (URL.toStr { u0 with query := none })).take 8)
    (hpath : s.path = folderName d ++ "/" ++ s.hash ++ "." ++ fileExtOf uf)
    (horig : s.original_url = url) (hfinal : s.final_url = fin)
    (hy1 : 1000 ≤ d.year) (hy2 : d.year < 10000) (hm : d.month + 1 < 100)
    (hd : d.day < 100) :
    parseURL url = some u0 ∧
    s.hash = (sha256hex (URL.toStr { u0 with query := none })).take 8 ∧
    s.original_url = url ∧
    s.path = folderName d ++ "/" ++ s.hash ++ "." ++ extOfUrl s.final_url ∧
    s.path.data.take 8 = (folderName d).data ∧
    (folderName d).data.length = 8 := by
  have h8 := folderName_length d hy1 hy2 hm hd
  have hxt : extOfUrl s.final_url = fileExtOf uf := by
    rw [hfinal, extOfUrl, hpf]
  have htake : s.path.data.take 8 = (folderName d).data := by
    rw [hpath]
    have hassoc : (folderName d ++ "/" ++ s.hash ++ "." ++ fileExtOf uf).data =
        (folderName d).data ++
          ("/".data ++ (s.hash.data ++ (".".data ++ (fileExtOf uf).data))) := by
      simp [String.data_append, List.append_assoc]
    rw [hassoc, List.take_left' h8]
  exact ⟨hp, hhash, horig, by rw [hxt]; exact hpath, htake, h8⟩

/-- **C5.** On a successful write the storage path is
`{datePrefix}/{shortHash}.{extension}`: `shortHash` is the first 8 hex
characters of SHA-256 over the original source URL with all query
parameters stripped (never a fallback variant), the first 8 characters of
the path are the 8-digit calendar date at write time, and the extension is
the lowercased file extension of the last path segment of the final URL
variant that succeeded. -/
theorem success_path_shape (fetchO : FetchOracle) (d : SimDate) (b : Bucket)
    (url : String) (s : CacheSuccess)
    (hs : (handlePostCache fetchO d b (.json (some url))).1.payload =
      .success s)
    (hy1 : 1000 ≤ d.year) (hy2 : d.year < 10000)
    (hm : d.month + 1 < 100) (hd : d.day < 100) :
    ∃ u : URL, parseURL url = some u ∧
      s.hash = (sha256hex (URL.toStr { u with query := none })).take 8 ∧
      s.original_url = url ∧
      (s.final_url = url ∨ s.final_url = getAlternativeDiscordUrl url) ∧
      s.path = folderName d ++ "/" ++ s.hash ++ "." ++ extOfUrl s.final_url ∧
      s.path.data.take 8 = (folderName d).data ∧
      (folderName d).data.length = 8 := by
  by_cases hfals : jsFalsy (some url) = true
  · rw [handlePostCache, if_pos hfals] at hs
    exact absurd hs (by simp)
  · by_cases hvalid : isDiscordUrl url = true
    · rw [handlePost_valid fetchO d b hvalid] at hs
      rcases h1 : fetchO url with r1 | e
      · rw [h1] at hs
        simp only [] at hs
        by_cases hc : (!r1.ok && r1.status == 403) = true
        · rw [if_pos hc] at hs
          by_cases halt : (getAlternativeDiscordUrl url != url) = true
          · rw [if_pos halt] at hs
            rcases h2 : fetchO (getAlternativeDiscordUrl url) with r2 | e
            · rw [h2] at hs
              obtain ⟨u0, uf, hp, hpf, hhash, hpath, horig, hfinal⟩ :=
                processResponse_success_payload d b url
                  (getAlternativeDiscordUrl url) r2
                  [url, getAlternativeDiscordUrl url] s hs
              obtain ⟨a1, a2, a3, a4, a5, a6⟩ :=
                success_assemble d url (getAlternativeDiscordUrl url) s u0 uf
                  hp hpf hhash hpath horig hfinal hy1 hy2 hm hd
              exact ⟨u0, a1, a2, a3, Or.inr hfinal, a4, a5, a6⟩
            · rw [h2] at hs
              exact absurd hs (by simp)
          · rw [if_neg halt] at hs
            obtain ⟨u0, uf, hp, hpf, hhash, hpath, horig, hfinal⟩ :=
              processResponse_success_payload d b url url r1 [url] s hs
            obtain ⟨a1, a2, a3, a4, a5, a6⟩ :=
              success_assemble d url url s u0 uf hp hpf hhash hpath horig
                hfinal hy1 hy2 hm hd
            exact ⟨u0, a1, a2, a3, Or.inl hfinal, a4, a5, a6⟩
        · rw [if_neg hc] at hs
          obtain ⟨u0, uf, hp, hpf, hhash, hpath, horig, hfinal⟩ :=
            processResponse_success_payload d b url url r1 [url] s hs
          obtain ⟨a1, a2, a3, a4, a5, a6⟩ :=
            success_assemble d url url s u0 uf hp hpf hhash hpath horig
              hfinal hy1 hy2 hm hd
          exact ⟨u0, a1, a2, a3, Or.inl hfinal, a4, a5, a6⟩
      · rw [h1] at hs
        exact absurd hs (by simp)
    · rw [handlePostCache, if_neg hfals] at hs
      simp only [Option.getD_some] at hs
      rw [if_pos (Bool.eq_false_iff.mpr hvalid)] at hs
      exact absurd hs (by simp)

set_option maxRecDepth 1000000 in
theorem success_path_shape_witness :
    (1000 ≤ dateC.year ∧ dateC.year < 10000 ∧ dateC.month + 1 < 100 ∧
      dateC.day < 100) ∧
    succOkC.path.data.take 8 = (folderName dateC).data := by
  have h := success_path_shape oracleOkC dateC [] urlC succOkC (by decide)
    (by decide) (by decide) (by decide) (by decide)
  obtain ⟨u, h1, h2, h3, h4, h5, h6, h7⟩ := h
  exact ⟨⟨by decide, by decide, by decide, by decide⟩, h6⟩

/-- The first eight characters of a derived path form the date folder. -/
theorem derivePath_firstEight (d : SimDate) (url : String) (u : URL)
    (hp : parseURL url = some u) (hy1 : 1000 ≤ d.year) (hy2 : d.year < 10000)
    (hm : d.month + 1 < 100) (hd : d.day < 100) :
    firstEight (derivePath d url) = some (folderName d).data := by
  have hD : derivePath d url = some (folderName d ++ "/" ++
      ((sha256hex (URL.toStr { u with query := none })).take 8) ++ "." ++
      fileExtOf u) := by
    simp only [derivePath, createShortHash, hp]
  rw [firstEight, hD]
  have h8 := folderName_length d hy1 hy2 hm hd
  have hassoc : (folderName d ++ "/" ++
      ((sha256hex (URL.toStr { u with query := none })).take 8) ++ "." ++
      fileExtOf u).data =
      (folderName d).data ++ ("/".data ++
        (((sha256hex (URL.toStr { u with query := none })).take 8).data ++
          (".".data ++ (fileExtOf u).data))) := by
    simp [String.data_append, List.append_assoc]
  show some ((folderName d ++ "/" ++
      ((sha256hex (URL.toStr { u with query := none })).take 8) ++ "." ++
      fileExtOf u).data.take 8) = some (folderName d).data
  rw [hassoc, List.take_left' h8]

/-- **C4.** Cache-key derivation is deterministic (repeat derivations with
the same date agree), invariant under the query parameters of the URL, and
date-sensitive: distinct in-range calendar days give derived paths with
different 8-character date prefixes. -/
theorem derive_key_properties (d1 d2 : SimDate) (url1 url2 : String)
    (u1 u2 : URL)
    (hp1 : parseURL url1 = some u1) (hp2 : parseURL url2 = some u2)
    (hq : u2 = { u1 with query := u2.query })
    (hy1 : 1000 ≤ d1.year) (hy1b : d1.year < 10000)
    (hy2 : 1000 ≤ d2.year) (hy2b : d2.year < 10000)
    (hm1 : d1.month < 99) (hm2 : d2.month < 99)
    (hd1 : d1.day < 100) (hd2 : d2.day < 100) :
    derivePath d1 url1 = derivePath d1 url1 ∧
    derivePath d1 url1 = derivePath d1 url2 ∧
    (d1 ≠ d2 →
      firstEight (derivePath d1 url1) ≠ firstEight (derivePath d2 url1)) := by
  refine ⟨rfl, ?_, ?_⟩
  · simp only [derivePath, createShortHash, hp1, hp2]
    rw [hq]
    rfl
  · intro hne hcontra
    rw [derivePath_firstEight d1 url1 u1 hp1 hy1 hy1b (by omega) hd1,
        derivePath_firstEight d2 url1 u1 hp1 hy2 hy2b (by omega) hd2]
      at hcontra
    exact hne (folderName_inj hy1 hy1b hy2 hy2b hm1 hm2 hd1 hd2
      (String.ext (Option.some.inj hcontra)))

set_option maxRecDepth 1000000 in
theorem derive_key_properties_witness :
    derivePath dateC urlC =
      derivePath dateC
        "https://cdn.discordapp.com/attachments/1/2/pic.png?other=1" ∧
    firstEight (derivePath dateC urlC) ≠
      firstEight (derivePath (⟨2026, 0, 16⟩ : SimDate) urlC) := by
  have h := derive_key_properties dateC ⟨2026, 0, 16⟩ urlC
    "https://cdn.discordapp.com/attachments/1/2/pic.png?other=1" uC
    { scheme := "https", host := "cdn.discordapp.com", port := none,
      path := "/attachments/1/2/pic.png", query := some "other=1",
      fragment := none }
    (by decide) (by decide) rfl
    (by decide) (by decide) (by decide) (by decide) (by decide) (by decide)
    (by decide) (by decide)
  exact ⟨h.2.1, h.2.2 (by decide)⟩

set_option maxRecDepth 1000000 in
/-- **C7.** The byte half of the round-trip holds on the fixture, but the
content-type half fails: the write observes `image/png`, the stored object
carries no `httpMetadata.contentType` (the put options pass the content
type outside `httpMetadata`), and the subsequent `GET` on the returned path
serves the identical bytes under the `application/octet-stream` default
instead of the content type recorded at write time. -/
theorem roundtrip_content_type_bug :
    (handlePostCache oracleOkC dateC [] (.json (some urlC))).1 =
      { status := 200, payload := .success succOkC } ∧
    headersGet respPngC.headers "content-type" = some "image/png" ∧
    (bucketGet (handlePostCache oracleOkC dateC [] (.json (some urlC))).2.2
        succOkC.path).map R2Object.body = some respPngC.body ∧
    (bucketGet (handlePostCache oracleOkC dateC [] (.json (some urlC))).2.2
        succOkC.path).map
      (fun o => o.httpMetadata.contentType) = some none ∧
    workerFetch oracleOkC dateC
        (handlePostCache oracleOkC dateC [] (.json (some urlC))).2.2 "GET"
        ("/" ++ succOkC.path) .invalidJson =
      ({ status := 200,
         payload := .fileBody respPngC.body "application/octet-stream"
           "public, max-age=31536000" }, [],
       (handlePostCache oracleOkC dateC [] (.json (some urlC))).2.2) :=
  ⟨by decide, by decide, by decide, by decide, by decide⟩

/-- In a well-formed URL no `'?'` occurs before the query part of the
serialization. -/
theorem question_not_mem_preQuery {u : URL} (h : u.wf) :
    ('?' : Char) ∉
      u.scheme.data ++ ':' :: '/' :: '/' ::
        (u.host.data ++ optData ':' u.port ++ u.path.data) := by
  obtain ⟨hs1, hs2, hs3, hh1, hh2, hpt, hp1, hp2, hp3, hq⟩ := h
  have hportQ : ('?' : Char) ∉ optData ':' u.port :=
    not_mem_optData hpt (by decide)
      (fun s _ hs => not_mem_of_all hs (by decide))
  intro hm
  rcases List.mem_append.mp hm with hm | hm
  · exact absurd (List.all_eq_true.mp hs3 _ hm) (by decide)
  rcases List.mem_cons.mp hm with hm | hm
  · exact absurd hm (by decide)
  rcases List.mem_cons.mp hm with hm | hm
  · exact absurd hm (by decide)
  rcases List.mem_cons.mp hm with hm | hm
  · exact absurd hm (by decide)
  rcases List.mem_append.mp hm with hm | hm
  · rcases List.mem_append.mp hm with hm2 | hm2
    · exact absurd (List.all_eq_true.mp hh2 _ hm2) (by decide)
    · exact hportQ hm2
  · exact absurd (List.all_eq_true.mp hp3 _ hm) (by decide)

/-- On a well-formed fragment-free URL, truncating the serialization at the
first `'?'` equals serializing with the query cleared. -/
theorem jsSplitHead_toStr {u : URL} (h : u.wf) (hf : u.fragment = none) :
    jsSplitHead (URL.toStr u) '?' = URL.toStr { u with query := none } := by
  have hdata : (URL.toStr u).data =
      (u.scheme.data ++ ':' :: '/' :: '/' ::
        (u.host.data ++ optData ':' u.port ++ u.path.data)) ++
        optData '?' u.query := by
    rw [toStr_data, hf]
    simp [optData]
  have hb := breakAtChar_optData '?'
    (u.scheme.data ++ ':' :: '/' :: '/' ::
      (u.host.data ++ optData ':' u.port ++ u.path.data)) u.query
    (question_not_mem_preQuery h)
  apply String.ext
  show (breakAtChar '?' (URL.toStr u).data).1 =
    (URL.toStr { u with query := none }).data
  rw [hdata, hb, toStr_data]
  simp [optData, hf]

/-- **C10 (amended).** Agreement domain of the two short-hash versions:
on the serialization of any well-formed fragment-free URL value the
revised version returns exactly the original version's hash.  The two
versions are not extensionally equal: they differ on fragment-carrying
URLs, which the worker accepts, and on unparsable strings (see the
counterexample). -/
theorem shortHash_versions_agree (u : URL) (h : u.wf)
    (hf : u.fragment = none) :
    createShortHash (URL.toStr u) =
      some (createShortHashOrig (URL.toStr u)) := by
  have hp := parseURL_toStr h
  rw [createShortHash]
  simp only [hp]
  rw [createShortHashOrig, jsSplitHead_toStr h hf]

set_option maxRecDepth 1000000 in
theorem shortHash_versions_agree_witness :
    createShortHash (URL.toStr uC) =
      some (createShortHashOrig (URL.toStr uC)) :=
  shortHash_versions_agree uC (by decide) (by decide)

set_option maxRecDepth 1000000 in
/-- **C10 (counterexample).** The two versions are not extensionally
equal, and the difference is reachable through the worker: the
fragment-carrying `fragUrlC` passes the validator, yet on it the revised
version clears only the query and keeps the fragment in the
reserialization it hashes, while the original truncates at the first
`'?'` and so drops the fragment along with the query; and on an
unparsable string the revised version throws (`none`) where the original
still returns an 8-character hash. -/
theorem shortHash_versions_differ_counterexample :
    isDiscordUrl fragUrlC = true ∧
    createShortHash fragUrlC ≠ some (createShortHashOrig fragUrlC) ∧
    createShortHash "x" = none ∧
    (createShortHashOrig "x").length = 8 :=
  ⟨by decide, by decide, by decide, by decide⟩
